import Mathlib

/-!
Project materialization and command handlers of proji.

A shallow embedding of `internal/app/proji/project/createproject.go` and of the
command handlers under `cmd/`.  Go `error` values are modelled by their message,
a `nil` error by `none`.  Side effects are modelled by explicit state passing:
every operating-system call made by the process is interpreted by a `Sys`
record and appended to a trace.
-/

namespace Proji

/-- Go `error` values, modelled by their message. -/
abbrev Err := String

/-! ## The Go standard library pieces used by the program -/

/-- The value built by `exec.Command(name, arg...)`: the program to start and the
arguments handed to it (the program name itself, `argv[0]`, is left implicit). -/
structure Cmd where
  name : String
  args : List String
deriving DecidableEq, Repr

/-- Flags of `os.OpenFile`. -/
inductive OpenFlag
  | O_RDONLY
  | O_WRONLY
  | O_RDWR
  | O_APPEND
  | O_CREATE
  | O_EXCL
  | O_TRUNC
deriving DecidableEq, Repr

/-- The constant `os.ModePerm` (0777). -/
def ModePerm : Nat := 511

/-- The operating-system calls issued by the program. -/
inductive SysCall
  | Mkdir (path : String) (perm : Nat)
  | Chdir (path : String)
  | MkdirAll (path : String) (perm : Nat)
  | OpenFile (path : String) (flags : List OpenFlag) (perm : Nat)
  | Copy (src dst : String)
  | Run (cmd : Cmd)
deriving DecidableEq, Repr

/-- The five phases of `Project.create`, named after the functions that implement them. -/
inductive Phase
  | createProjectFolder
  | createSubFolders
  | createFiles
  | copyTemplates
  | runScripts
deriving DecidableEq, Repr

/-- What an observer of the process sees: lines printed on standard output,
operating-system calls (with the current directory at the time of the call and
the error returned), and the return of a phase function to `create`. -/
inductive Event
  | Print (text : String)
  | Sys (cwd : String) (call : SysCall) (result : Option Err)
  | Ret (phase : Phase) (result : Option Err)
deriving DecidableEq, Repr

/-- The environment of the process over an external world `F` (file system,
other processes): `exec cwd call w` is the error returned by `call` issued with
current directory `cwd` in world `w`, and the world afterwards.  `isLetter` and
`isDigit` are the tables `unicode.IsLetter` and `unicode.IsDigit`. -/
structure Sys (F : Type) where
  exec : String → SysCall → F → Option Err × F
  isLetter : Char → Bool
  isDigit : Char → Bool

/-- The state of the running process: its current directory, the external world
and the trace of events so far. -/
structure Proc (F : Type) where
  cwd : String
  world : F
  trace : List Event

/-- The path `p` as seen from directory `cwd`: absolute paths stand for
themselves, relative ones are taken below `cwd`. -/
def absPath (cwd p : String) : String :=
  match p.data with
  | '/' :: _ => p
  | _ => cwd ++ "/" ++ p

/-- Issue one operating-system call.  A successful `Chdir` moves the current
directory; nothing else does. -/
def Proc.sys {F : Type} (sys : Sys F) (call : SysCall) (s : Proc F) : Option Err × Proc F :=
  let r := sys.exec s.cwd call s.world
  let cwd := match call, r.1 with
    | .Chdir p, none => absPath s.cwd p
    | _, _ => s.cwd
  (r.1, { cwd := cwd, world := r.2, trace := s.trace ++ [Event.Sys s.cwd call r.1] })

/-- Go `fmt.Println` of one line. -/
def Proc.println {F : Type} (text : String) (s : Proc F) : Proc F :=
  { s with trace := s.trace ++ [Event.Print text] }

/-- Record that a phase function returned `r.1` to `create`. -/
def Proc.ret {F : Type} (ph : Phase) (r : Option Err × Proc F) : Option Err × Proc F :=
  (r.1, { r.2 with trace := r.2.trace ++ [Event.Ret ph r.1] })

/-! ### `regexp.ReplaceAllString` for a literal pattern -/

/-- The name read by `regexp.extract` at the start of `str` (the text after a
`$`): the longest run of letters, digits and underscores. -/
def extractName (isLetter isDigit : Char → Bool) : List Char → List Char
  | [] => []
  | c :: cs =>
    if isLetter c || isDigit c || c == '_' then c :: extractName isLetter isDigit cs else []

/-- The number denoted by `name` in `regexp.extract`: `some n` when `name` is a
decimal numeral without leading zero below the cut-off `1e8`, `none` (the
source's `-1`) otherwise. -/
def extractNum (name : List Char) : Option Nat :=
  let step (acc : Option Nat) (c : Char) : Option Nat :=
    match acc with
    | none => none
    | some num =>
      if c < '0' || '9' < c || num ≥ 100000000 then none
      else some (num * 10 + (c.toNat - '0'.toNat))
  match name.foldl step (some 0) with
  | none => none
  | some num =>
    match name with
    | '0' :: _ :: _ => none
    | _ => some num

/-- Go `regexp.extract`: the name after a `$`, its number, and the rest of the
template; `none` when the reference is malformed. -/
def extract (isLetter isDigit : Char → Bool) (str : List Char) :
    Option (List Char × Option Nat × List Char) :=
  match str with
  | [] => none
  | c :: cs =>
    let brace := c == '\x7b'
    let body := if brace then cs else c :: cs
    let name := extractName isLetter isDigit body
    if name.length = 0 then none
    else
      let after := body.drop name.length
      if brace then
        match after with
        | '\x7d' :: rest => some (name, extractNum name, rest)
        | _ => none
      else some (name, extractNum name, after)

/-- Go `Regexp.expand` for a pattern without capture groups, whose only
submatch is number 0, the whole match `whole`.  `fuel` bounds the number of
`$` signs handled; the length of the template is always enough. -/
def expand (isLetter isDigit : Char → Bool) (whole : List Char) :
    Nat → List Char → List Char
  | 0, template => template
  | fuel + 1, template =>
    match template.span (· != '$') with
    | (_, []) => template
    | (before, _ :: after) =>
      match after with
      | '$' :: rest => before ++ '$' :: expand isLetter isDigit whole fuel rest
      | _ =>
        match extract isLetter isDigit after with
        | none => before ++ '$' :: expand isLetter isDigit whole fuel after
        | some (_, num, rest) =>
          let sub := if num = some 0 then whole else []
          before ++ sub ++ expand isLetter isDigit whole fuel rest

/-- The loop of Go `Regexp.replaceAll` for a non-empty literal pattern `pat`:
`skip` is the number of characters of the current match still to be passed
over. -/
def replaceLiteral (pat repl : List Char) : Nat → List Char → List Char
  | _, [] => []
  | skip + 1, _ :: cs => replaceLiteral pat repl skip cs
  | 0, c :: cs =>
    if pat.isPrefixOf (c :: cs) then repl ++ replaceLiteral pat repl (pat.length - 1) cs
    else c :: replaceLiteral pat repl 0 cs

/-- Go `re.ReplaceAllString(src, repl)` for `re := regexp.MustCompile(pat)`
with `pat` a non-empty literal without metacharacters: every match is replaced
by the expansion of the template `repl`, in which `$` signs are interpreted as
in `Expand`. -/
def ReplaceAllString (isLetter isDigit : Char → Bool) (pat src repl : String) : String :=
  ⟨replaceLiteral pat.data (expand isLetter isDigit pat.data (repl.length + 1) repl.data) 0 src.data⟩

/-- The placeholder pattern compiled by `regexp.MustCompile` in each phase. -/
def PROJECT_NAME : String := "__PROJECT_NAME__"

/-! ## The class tables of the SQLite database -/

/-- A row of `class_folder` or of `class_file`.  `class_id` is `NULL` (`none`)
for the rows of the reserved class, which apply to every project; `template`
is `NULL` for a plain folder or an empty file. -/
structure EntryRow where
  class_id : Option Nat
  target : String
  template : Option String
deriving DecidableEq, Repr

/-- A row of `class_script`. -/
structure ScriptRow where
  class_id : Option Nat
  name : String
  run_as_sudo : Bool
deriving DecidableEq, Repr

/-- The open database handle `setup.db`: the three tables read by the phases,
and `fault`, the error with which `Prepare` or `Query` fails for a given SQL
text (`none` when the statement runs). -/
structure DB where
  class_folder : List EntryRow
  class_file : List EntryRow
  class_script : List ScriptRow
  fault : String → Option Err

/-- SQLite's order on the values of an integer column: `NULL` is smaller than
every other value. -/
def sqlLE : Option Nat → Option Nat → Prop
  | none, _ => True
  | some _, none => False
  | some a, some b => a ≤ b

instance sqlLE.decidable : DecidableRel sqlLE := fun a b =>
  match a, b with
  | none, _ => isTrue trivial
  | some _, none => isFalse (fun h => h)
  | some a, some b => inferInstanceAs (Decidable (a ≤ b))

/-- The relation by which `ORDER BY class_id DESC` arranges script rows: a row
may stand before another when its `class_id` is at least the other's. -/
def classIdDesc (a b : ScriptRow) : Prop := sqlLE b.class_id a.class_id

instance classIdDesc.decidable : DecidableRel classIdDesc := fun a b =>
  inferInstanceAs (Decidable (sqlLE b.class_id a.class_id))

/-- The condition `(class_id = ? OR class_id IS NULL)` with `?` bound to `pid`. -/
def ofClassOrGlobal (pid : Nat) (class_id : Option Nat) : Bool :=
  class_id == some pid || class_id == none

/-- Run a statement: the error of `Prepare`/`Query` if there is one, the rows
otherwise. -/
def DB.query {α : Type} (db : DB) (sql : String) (rows : List α) : Except Err (List α) :=
  match db.fault sql with
  | some err => .error err
  | none => .ok rows

/-- The statement of `createSubFolders`. -/
def sqlSubFolders : String :=
  "SELECT target FROM class_folder WHERE (class_id = ? OR class_id IS NULL) AND template IS NULL"

/-- The statement of `createFiles`. -/
def sqlFiles : String :=
  "SELECT target FROM class_file WHERE (class_id = ? OR class_id IS NULL) AND template IS NULL"

/-- The first statement of `copyTemplates`. -/
def sqlTemplateFolders : String :=
  "SELECT target, template FROM class_folder WHERE (class_id = ? OR class_id IS NULL) AND template IS NOT NULL"

/-- The second statement of `copyTemplates`. -/
def sqlTemplateFiles : String :=
  "SELECT target, template FROM class_file WHERE (class_id = ? OR class_id IS NULL) AND template IS NOT NULL"

/-- The statement of `runScripts`. -/
def sqlScripts : String :=
  "SELECT name, run_as_sudo FROM class_script WHERE (class_id is NULL OR class_id = ?) ORDER BY class_id DESC"

/-- Rows selected by `sqlSubFolders` and by `sqlFiles`, in table order. -/
def selectPlain (table : List EntryRow) (pid : Nat) : List String :=
  (table.filter (fun r => ofClassOrGlobal pid r.class_id && r.template.isNone)).map (·.target)

/-- Rows selected by `sqlTemplateFolders` and by `sqlTemplateFiles`, in table order. -/
def selectTemplates (table : List EntryRow) (pid : Nat) : List (String × String) :=
  (table.filter (fun r => ofClassOrGlobal pid r.class_id)).filterMap
    (fun r => r.template.map (fun t => (r.target, t)))

/-- Rows selected by `sqlScripts`: the matching rows, arranged by
`ORDER BY class_id DESC` (rows with equal `class_id` keep their table order). -/
def selectScripts (table : List ScriptRow) (pid : Nat) : List ScriptRow :=
  (table.filter (fun r => r.class_id == none || r.class_id == some pid)).insertionSort classIdDesc

/-! ## `createproject.go` -/

/-- The `Setup` struct.  `projectID` is the `class_id` read for the label; the
source holds it as decimal text and SQLite compares it as a number. -/
structure Setup where
  Owd : String
  ConfigDir : String
  DatabaseName : String
  Label : String
  templatesDir : String
  scriptsDir : String
  dbDir : String
  db : DB
  projectID : Nat

/-- The `Project` struct. -/
structure Project where
  id : String
  Name : String
  Data : Setup

/-- `Project.createProjectFolder`. -/
def createProjectFolder {F : Type} (sys : Sys F) (project : Project) (s : Proc F) :
    Option Err × Proc F :=
  s.sys sys (.Mkdir project.Name ModePerm)

/-- The row loop of `createSubFolders`. -/
def createSubFoldersLoop {F : Type} (sys : Sys F) (project : Project) :
    List String → Proc F → Option Err × Proc F
  | [], s => (none, s)
  | subFolder :: rows, s =>
    let subFolder := ReplaceAllString sys.isLetter sys.isDigit PROJECT_NAME subFolder project.Name
    match s.sys sys (.MkdirAll subFolder ModePerm) with
    | (some err, s) => (some err, s)
    | (none, s) => createSubFoldersLoop sys project rows s

/-- `Project.createSubFolders`. -/
def createSubFolders {F : Type} (sys : Sys F) (project : Project) (s : Proc F) :
    Option Err × Proc F :=
  match project.Data.db.query sqlSubFolders
      (selectPlain project.Data.db.class_folder project.Data.projectID) with
  | .error err => (some err, s)
  | .ok subFolders => createSubFoldersLoop sys project subFolders s

/-- The row loop of `createFiles`. -/
def createFilesLoop {F : Type} (sys : Sys F) (project : Project) :
    List String → Proc F → Option Err × Proc F
  | [], s => (none, s)
  | file :: rows, s =>
    let file := ReplaceAllString sys.isLetter sys.isDigit PROJECT_NAME file project.Name
    match s.sys sys (.OpenFile file [.O_RDONLY, .O_CREATE] ModePerm) with
    | (some err, s) => (some err, s)
    | (none, s) => createFilesLoop sys project rows s

/-- `Project.createFiles`. -/
def createFiles {F : Type} (sys : Sys F) (project : Project) (s : Proc F) :
    Option Err × Proc F :=
  match project.Data.db.query sqlFiles
      (selectPlain project.Data.db.class_file project.Data.projectID) with
  | .error err => (some err, s)
  | .ok files => createFilesLoop sys project files s

/-- The two row loops of `copyTemplates` (the same code for folders and files). -/
def copyTemplatesLoop {F : Type} (sys : Sys F) (project : Project) :
    List (String × String) → Proc F → Option Err × Proc F
  | [], s => (none, s)
  | (target, src) :: rows, s =>
    let target := ReplaceAllString sys.isLetter sys.isDigit PROJECT_NAME target project.Name
    let src := project.Data.templatesDir ++ src
    match s.sys sys (.Copy src target) with
    | (some err, s) => (some err, s)
    | (none, s) => copyTemplatesLoop sys project rows s

/-- `Project.copyTemplates`. -/
def copyTemplates {F : Type} (sys : Sys F) (project : Project) (s : Proc F) :
    Option Err × Proc F :=
  match project.Data.db.query sqlTemplateFolders
      (selectTemplates project.Data.db.class_folder project.Data.projectID) with
  | .error err => (some err, s)
  | .ok folders =>
    match copyTemplatesLoop sys project folders s with
    | (some err, s) => (some err, s)
    | (none, s) =>
      match project.Data.db.query sqlTemplateFiles
          (selectTemplates project.Data.db.class_file project.Data.projectID) with
      | .error err => (some err, s)
      | .ok files => copyTemplatesLoop sys project files s

/-- The command started for one script row: `exec.Command(script)` after the
two assignments to `script`. -/
def scriptCommand (scriptsDir : String) (row : ScriptRow) : Cmd :=
  let script := scriptsDir ++ row.name
  let script := if row.run_as_sudo then "sudo " ++ script else script
  { name := script, args := [] }

/-- The row loop of `runScripts`. -/
def runScriptsLoop {F : Type} (sys : Sys F) (project : Project) :
    List ScriptRow → Proc F → Option Err × Proc F
  | [], s => (none, s)
  | row :: rows, s =>
    match s.sys sys (.Run (scriptCommand project.Data.scriptsDir row)) with
    | (some err, s) => (some err, s)
    | (none, s) => runScriptsLoop sys project rows s

/-- `Project.runScripts`. -/
def runScripts {F : Type} (sys : Sys F) (project : Project) (s : Proc F) :
    Option Err × Proc F :=
  match project.Data.db.query sqlScripts
      (selectScripts project.Data.db.class_script project.Data.projectID) with
  | .error err => (some err, s)
  | .ok scripts => runScriptsLoop sys project scripts s

/-- The part of `Project.create` after `defer os.Chdir(project.Data.Owd)`. -/
def createBody {F : Type} (sys : Sys F) (project : Project) (s : Proc F) :
    Option Err × Proc F :=
  let s := s.println "> Creating subfolders..."
  match Proc.ret .createSubFolders (createSubFolders sys project s) with
  | (some err, s) => (some err, s)
  | (none, s) =>
    let s := s.println "> Creating files..."
    match Proc.ret .createFiles (createFiles sys project s) with
    | (some err, s) => (some err, s)
    | (none, s) =>
      let s := s.println "> Copying templates..."
      match Proc.ret .copyTemplates (copyTemplates sys project s) with
      | (some err, s) => (some err, s)
      | (none, s) =>
        let s := s.println "> Running scripts..."
        match Proc.ret .runScripts (runScripts sys project s) with
        | (some err, s) => (some err, s)
        | (none, s) => (none, s)

/-- `Project.create`.  The deferred `os.Chdir(project.Data.Owd)` runs when the
function returns after the `defer` statement; its error is discarded. -/
def create {F : Type} (sys : Sys F) (project : Project) (s : Proc F) : Option Err × Proc F :=
  let s := s.println "> Creating project folder..."
  match Proc.ret .createProjectFolder (createProjectFolder sys project s) with
  | (some err, s) => (some err, s)
  | (none, s) =>
    match s.sys sys (.Chdir project.Name) with
    | (some err, s) => (some err, s)
    | (none, s) =>
      let r := createBody sys project s
      (r.1, (r.2.sys sys (.Chdir project.Data.Owd)).2)

/-- The commands started (`exec.Cmd.Run`) in a trace, in order. -/
def commandsRun : List Event → List Cmd
  | [] => []
  | .Sys _ (.Run cmd) _ :: t => cmd :: commandsRun t
  | _ :: t => commandsRun t

/-! ## A concrete world: a POSIX-like file system

Used to evaluate the program on concrete inputs.  Paths are resolved lexically
(no symbolic links); permissions are not modelled. -/

/-- A resolved absolute path: its components below the root. -/
abbrev Path := List String

/-- Split at every `/`. -/
def splitSlash : List Char → List (List Char)
  | [] => [[]]
  | c :: cs =>
    match splitSlash cs with
    | [] => [[c]]
    | seg :: segs => if c == '/' then [] :: seg :: segs else (c :: seg) :: segs

/-- Resolve an absolute path: empty components and `.` are dropped, `..` goes up. -/
def cleanPath (p : String) : Path :=
  (splitSlash p.data).foldl
    (fun acc seg =>
      if seg = [] ∨ seg = ['.'] then acc
      else if seg = ['.', '.'] then acc.dropLast
      else acc ++ [String.mk seg]) []

/-- A file system: the directories, and the regular files with their content. -/
structure FS where
  dirs : List Path
  files : List (Path × String)
deriving DecidableEq, Repr

/-- Content of the regular file at `p`, if there is one. -/
def FS.read (fs : FS) (p : Path) : Option String := fs.files.lookup p

/-- Replace or add the regular file at `p`. -/
def FS.write (fs : FS) (p : Path) (content : String) : FS :=
  { fs with files := (p, content) :: fs.files.filter (fun e => e.1 != p) }

/-- POSIX `mkdir(2)`. -/
def FS.mkdir (fs : FS) (p : Path) : Option Err × FS :=
  if p ∈ fs.dirs ∨ (fs.read p).isSome then (some "file exists", fs)
  else if p.dropLast ∈ fs.dirs then (none, { fs with dirs := fs.dirs ++ [p] })
  else (some "no such file or directory", fs)

/-- Go `os.MkdirAll` along the ancestors `ps` of the target, outermost first:
existing directories are kept, missing ones are created, a regular file in the
way is an error. -/
def FS.mkdirAll (fs : FS) : List Path → Option Err × FS
  | [] => (none, fs)
  | p :: ps =>
    if (fs.read p).isSome then (some "not a directory", fs)
    else if p ∈ fs.dirs then fs.mkdirAll ps
    else FS.mkdirAll { fs with dirs := fs.dirs ++ [p] } ps

/-- POSIX `open(2)` followed by `close(2)`. -/
def FS.openFile (fs : FS) (p : Path) (flags : List OpenFlag) : Option Err × FS :=
  if p ∈ fs.dirs then
    if .O_CREATE ∈ flags ∨ .O_WRONLY ∈ flags ∨ .O_RDWR ∈ flags then (some "is a directory", fs)
    else (none, fs)
  else
    match fs.read p with
    | some _ =>
      if .O_CREATE ∈ flags ∧ .O_EXCL ∈ flags then (some "file exists", fs)
      else if .O_TRUNC ∈ flags ∧ (.O_WRONLY ∈ flags ∨ .O_RDWR ∈ flags) then (none, fs.write p "")
      else (none, fs)
    | none =>
      if .O_CREATE ∈ flags then
        if p.dropLast ∈ fs.dirs then (none, fs.write p "")
        else (some "no such file or directory", fs)
      else (some "no such file or directory", fs)

/-- The POSIX-like environment.  What `copy.Copy` does and what a started
program does are given by `copy` and `run`; the letters and digits are those
of ASCII. -/
def posix (copy : Path → Path → FS → Option Err × FS)
    (run : String → Cmd → FS → Option Err × FS) : Sys FS where
  exec := fun cwd call fs =>
    match call with
    | .Mkdir path _ => fs.mkdir (cleanPath (absPath cwd path))
    | .Chdir path =>
      if cleanPath (absPath cwd path) ∈ fs.dirs then (none, fs)
      else (some "no such file or directory", fs)
    | .MkdirAll path _ => fs.mkdirAll (cleanPath (absPath cwd path)).inits.tail
    | .OpenFile path flags _ => fs.openFile (cleanPath (absPath cwd path)) flags
    | .Copy src dst => copy (cleanPath (absPath cwd src)) (cleanPath (absPath cwd dst)) fs
    | .Run cmd => run cwd cmd fs
  isLetter := Char.isAlpha
  isDigit := Char.isDigit

/-- A `copy.Copy` for regular files: the content of `src` is written to `dst`. -/
def copyFile (src dst : Path) (fs : FS) : Option Err × FS :=
  match fs.read src with
  | none => (some "no such file or directory", fs)
  | some content => (none, fs.write dst content)

/-- Scripts that exit with status 0 and change nothing. -/
def runOk (_cwd : String) (_cmd : Cmd) (fs : FS) : Option Err × FS := (none, fs)

/-- An example database: the reserved class contributes `global.sh`, class 2
contributes `local.sh`. -/
def exampleDB : DB where
  class_folder := [⟨some 2, "src/__PROJECT_NAME__/", none⟩]
  class_file := [⟨some 2, "notes.txt", none⟩]
  class_script := [⟨none, "global.sh", false⟩, ⟨some 2, "local.sh", false⟩]
  fault := fun _ => none

/-- An example setup for class 2, as `Setup.init` leaves it. -/
def exampleSetup : Setup where
  Owd := "/home/u"
  ConfigDir := "/cfg/"
  DatabaseName := "proji.sqlite3"
  Label := "exp"
  templatesDir := "/cfg/templates/"
  scriptsDir := "/cfg/scripts/"
  dbDir := "/cfg/db/"
  db := exampleDB
  projectID := 2

/-- An example project. -/
def exampleProject : Project := { id := "", Name := "demo", Data := exampleSetup }

/-- An example file system. -/
def exampleFS : FS where
  dirs := [[], ["home"], ["home", "u"], ["cfg"], ["cfg", "scripts"], ["cfg", "templates"]]
  files := [(["home", "u", "keep.txt"], "hello")]

/-- The process in its original working directory, nothing traced yet. -/
def exampleProc : Proc FS := { cwd := "/home/u", world := exampleFS, trace := [] }

/-- The operating-system calls in a trace, in order. -/
def sysCalls : List Event → List SysCall
  | [] => []
  | .Sys _ call _ :: t => call :: sysCalls t
  | _ :: t => sysCalls t

/-- Plain string replacement: every occurrence of `pat` in `src`, found from
left to right without overlap, is replaced by `repl` itself. -/
def replaceVerbatim (pat src repl : String) : String :=
  ⟨replaceLiteral pat.data repl.data 0 src.data⟩

/-- A project of the example class whose name contains a `$`. -/
def dollarProject : Project := { id := "", Name := "cash$app", Data := exampleSetup }

/-- A database whose class 2 has one script to be run with `sudo`. -/
def sudoDB : DB where
  class_folder := []
  class_file := []
  class_script := [⟨some 2, "install.sh", true⟩]
  fault := fun _ => none

/-- A project of a class with a `sudo` script. -/
def sudoProject : Project :=
  { id := "", Name := "demo", Data := { exampleSetup with db := sudoDB } }

/-- The phase returns recorded in a trace, in order. -/
def phaseReturns : List Event → List (Phase × Option Err)
  | [] => []
  | .Ret ph r :: t => (ph, r) :: phaseReturns t
  | _ :: t => phaseReturns t

/-- The five phases in the order of the specification: root folder,
subfolders, files, template copy, scripts. -/
def allPhases : List Phase :=
  [.createProjectFolder, .createSubFolders, .createFiles, .copyTemplates, .runScripts]

/-- Fail-fast sequencing of announced phases: each phase is announced, run and
its return recorded; the first error ends the sequence and is the result. -/
def seqPhases {F : Type} :
    List (Phase × String × (Proc F → Option Err × Proc F)) → Proc F → Option Err × Proc F
  | [], s => (none, s)
  | (ph, header, run) :: rest, s =>
    match Proc.ret ph (run (s.println header)) with
    | (some err, s) => (some err, s)
    | (none, s) => seqPhases rest s

/-- The four phases run by `createBody`, with their announcements. -/
def bodyPhases {F : Type} (sys : Sys F) (project : Project) :
    List (Phase × String × (Proc F → Option Err × Proc F)) :=
  [(.createSubFolders, "> Creating subfolders...", createSubFolders sys project),
   (.createFiles, "> Creating files...", createFiles sys project),
   (.copyTemplates, "> Copying templates...", copyTemplates sys project),
   (.runScripts, "> Running scripts...", runScripts sys project)]

/-- A call other than `Chdir`. -/
def SysCall.keepsCwd : SysCall → Bool
  | .Chdir _ => false
  | _ => true

/-- A phase function is quiet when it leaves the current directory alone and
adds to the trace only operating-system calls issued from it. -/
def Quiet {F : Type} (run : Proc F → Option Err × Proc F) : Prop :=
  ∀ s, (run s).2.cwd = s.cwd ∧
    ∃ U, (run s).2.trace = s.trace ++ U ∧ ∀ e ∈ U, ∃ call r, e = Event.Sys s.cwd call r

/-- The shape shared by the row loops of the four phases: one call per row,
stopping at the first error. -/
def forEachCall {F α : Type} (sys : Sys F) (mk : α → SysCall) :
    List α → Proc F → Option Err × Proc F
  | [], s => (none, s)
  | row :: rows, s =>
    match s.sys sys (mk row) with
    | (some err, s) => (some err, s)
    | (none, s) => forEachCall sys mk rows s

/-- The state in which `create` receives the result of `createProjectFolder`. -/
def afterRoot {F : Type} (sys : Sys F) (project : Project) (s : Proc F) : Option Err × Proc F :=
  Proc.ret .createProjectFolder
    (createProjectFolder sys project (s.println "> Creating project folder..."))

/-- The state after `os.Chdir(project.Name)`, issued when the root folder was created. -/
def afterChdir {F : Type} (sys : Sys F) (project : Project) (s : Proc F) : Option Err × Proc F :=
  (afterRoot sys project s).2.sys sys (.Chdir project.Name)

/-- The state in which the four remaining phases end, before the deferred `os.Chdir`. -/
def afterBody {F : Type} (sys : Sys F) (project : Project) (s : Proc F) : Option Err × Proc F :=
  createBody sys project (afterChdir sys project s).2

/-- A script that removes the directory tree at `/home/u` and exits with status 0. -/
def runRemoveTree (_cwd : String) (_cmd : Cmd) (fs : FS) : Option Err × FS :=
  (none, { dirs := fs.dirs.filter (fun d => !(["home", "u"].isPrefixOf d)),
           files := fs.files.filter (fun f => !(["home", "u"].isPrefixOf f.1)) })

/-- A database whose class 2 lists the file `../keep.txt`, a path outside the
project root, with an empty template source. -/
def keepDB : DB where
  class_folder := []
  class_file := [⟨some 2, "../keep.txt", none⟩]
  class_script := []
  fault := fun _ => none

/-- A project of the class of `keepDB`. -/
def keepProject : Project :=
  { id := "", Name := "demo", Data := { exampleSetup with db := keepDB } }

/-- The process inside the freshly created project root `/home/u/demo`. -/
def inProjectRoot : Proc FS :=
  { cwd := "/home/u/demo",
    world := { exampleFS with dirs := exampleFS.dirs ++ [["home", "u", "demo"]] },
    trace := [] }

/-- The resolved path on which `createFiles` opens the file of a stored target. -/
def fileTarget (project : Project) (cwd target : String) : Path :=
  cleanPath (absPath cwd
    (ReplaceAllString Char.isAlpha Char.isDigit PROJECT_NAME target project.Name))

/-! ## The command handlers under `cmd/` -/

namespace Commands

/-- The class struct (`item.Class`, `models.Class`). -/
structure Class where
  ID : Nat
  Name : String
  Label : String
  IsDefault : Bool
  Folders : List (String × String)
  Files : List (String × String)
  Scripts : List (String × Bool)
deriving DecidableEq, Repr

/-- The stored project struct (`models.Project`). -/
structure Project where
  ID : Nat
  Name : String
  Path : String
  ClassID : Nat
deriving DecidableEq, Repr

deriving instance DecidableEq for Except

/-- What an observer of a command sees: the calls made on the storage service
and on the other collaborators, with their results, and the text printed. -/
inductive Event
  | SaveProject (project : Project) (result : Option Err)
  | Create (project : Project) (cwd configPath : String) (result : Option Err)
  | LoadProject (path : String) (result : Except Err Project)
  | LoadAllProjects (result : Except Err (List Project))
  | RemoveProject (path : String) (result : Option Err)
  | LoadClassIDByLabel (label : String) (result : Except Err Nat)
  | LoadAllClasses (result : Except Err (List Class))
  | RemoveClass (id : Nat) (result : Option Err)
  | ImportFromConfig (config : String) (result : Option Err)
  | SaveClass (cls : Class) (result : Option Err)
  | WantTo (question : String) (answer : Bool)
  | Printf (text : String)
deriving DecidableEq, Repr

/-- The collaborators of the command handlers, none of which is defined in the
handlers' files: the storage service `projiEnv.Svc` over a repository state
`σ`, the methods `Project.Create` and `Class.ImportFromConfig` over a file
system `F`, the prompt `helper.WantTo` over a terminal `T`, the constructors
`NewProject` and `NewClass`, and `filepath.Join`.  `SaveProject` receives a
pointer and may update the project it is given. -/
structure Env (σ F T : Type) where
  SaveProject : Project → σ → Option Err × Project × σ
  LoadProject : String → σ → Except Err Project
  LoadAllProjects : σ → Except Err (List Project)
  RemoveProject : String → σ → Option Err × σ
  LoadClassIDByLabel : String → σ → Except Err Nat
  LoadAllClasses : σ → Except Err (List Class)
  RemoveClass : Nat → σ → Option Err × σ
  SaveClass : Class → σ → Option Err × σ
  Create : Project → String → String → F → Option Err × F
  ImportFromConfig : String → Class → F → Option Err × Class
  WantTo : String → T → Bool × T
  NewProject : String → String → Class → Project
  NewClass : String → String → Bool → Class
  Join : String → String → String

/-- The state around a command: the repository, the file system, the terminal
and the trace of events so far. -/
structure World (σ F T : Type) where
  store : σ
  fs : F
  tty : T
  trace : List Event

/-- Append one event to the trace. -/
def World.log {σ F T : Type} (w : World σ F T) (e : Event) : World σ F T :=
  { w with trace := w.trace ++ [e] }

/-! ### `cmd/projectCreate.go` -/

/-- `createProject`. -/
def createProject {σ F T : Type} (env : Env σ F T) (name cwd configPath : String)
    (cls : Class) (w : World σ F T) : Option Err × World σ F T :=
  let project := env.NewProject name (env.Join cwd name) cls
  match env.SaveProject project w.store with
  | (some err, _, store) =>
    (some err, { w with store := store }.log (.SaveProject project (some err)))
  | (none, project', store) =>
    let w := { w with store := store }.log (.SaveProject project none)
    match env.Create project' cwd configPath w.fs with
    | (some err, fs) =>
      (some err, { w with fs := fs }.log (.Create project' cwd configPath (some err)))
    | (none, fs) => (none, { w with fs := fs }.log (.Create project' cwd configPath none))

/-! ### `cmd/projectRm.go` -/

/-- Go `%d` applied to a string argument. -/
def fmtBadVerbD (s : String) : String := "%!d(string=" ++ s ++ ")"

/-- The text printed by `rmCmd.RunE` when a removal failed. -/
def removalFailedLine (path : String) (err : Err) : String :=
  "> Removing project '" ++ fmtBadVerbD path ++ "' failed: " ++ err ++ "\n"

/-- The loop of `rmCmd.RunE` that loads the projects named by the arguments. -/
def loadProjects {σ F T : Type} (env : Env σ F T) :
    List String → List Project → World σ F T → Except Err (List Project) × World σ F T
  | [], projects, w => (.ok projects, w)
  | path :: args, projects, w =>
    match env.LoadProject path w.store with
    | .error err => (.error err, w.log (.LoadProject path (.error err)))
    | .ok project =>
      loadProjects env args (projects ++ [project]) (w.log (.LoadProject path (.ok project)))

/-- The loop of `rmCmd.RunE` that removes the projects. -/
def removeProjects {σ F T : Type} (env : Env σ F T) (forceRemoveProjects : Bool) :
    List Project → World σ F T → Option Err × World σ F T
  | [], w => (none, w)
  | project :: projects, w =>
    let question := "Do you really want to remove project '" ++ project.Name ++ " (" ++
      toString project.ID ++ ")'?"
    let asked : Bool × World σ F T :=
      if !forceRemoveProjects then
        let a := env.WantTo question w.tty
        (a.1, { w with tty := a.2 }.log (.WantTo question a.1))
      else (true, w)
    if !asked.1 then removeProjects env forceRemoveProjects projects asked.2
    else
      let w := asked.2
      match env.RemoveProject project.Path w.store with
      | (some err, store) =>
        let w := { w with store := store }.log (.RemoveProject project.Path (some err))
        let w := w.log (.Printf (removalFailedLine project.Path err))
        (some err, w)
      | (none, store) =>
        let w := { w with store := store }.log (.RemoveProject project.Path none)
        let w := w.log (.Printf ("> Project '" ++ fmtBadVerbD project.Path ++
          "' was successfully removed\n"))
        removeProjects env forceRemoveProjects projects w

/-- The first part of `rmCmd.RunE`, "collect projects that will be removed". -/
def collectProjects {σ F T : Type} (env : Env σ F T) (removeAllProjects : Bool)
    (args : List String) (w : World σ F T) : Except Err (List Project) × World σ F T :=
  if removeAllProjects then
    (env.LoadAllProjects w.store, w.log (.LoadAllProjects (env.LoadAllProjects w.store)))
  else if args.length < 1 then (.error "missing project paths", w)
  else loadProjects env args [] w

/-- `rmCmd.RunE`, with the package-level flags `removeAllProjects` and
`forceRemoveProjects` as arguments. -/
def rmCmd_RunE {σ F T : Type} (env : Env σ F T) (removeAllProjects forceRemoveProjects : Bool)
    (args : List String) (w : World σ F T) : Option Err × World σ F T :=
  match collectProjects env removeAllProjects args w with
  | (.error err, w) => (some err, w)
  | (.ok projects, w) => removeProjects env forceRemoveProjects projects w

/-! ### `cmd/proji/cmd/classRm.go` -/

/-- `removeClass`. -/
def removeClass {σ F T : Type} (env : Env σ F T) (label : String) (w : World σ F T) :
    Option Err × World σ F T :=
  let w1 := w.log (.LoadClassIDByLabel label (env.LoadClassIDByLabel label w.store))
  match env.LoadClassIDByLabel label w.store with
  | .error err => (some err, w1)
  | .ok classID =>
    if classID = 1 then (some "Class 1 can not be removed", w1)
    else
      let r := env.RemoveClass classID w1.store
      (r.1, { w1 with store := r.2 }.log (.RemoveClass classID r.1))

/-- The loop of `removeAllClasses`. -/
def removeAllClassesLoop {σ F T : Type} (env : Env σ F T) :
    List Class → World σ F T → Option Err × World σ F T
  | [], w => (none, w)
  | cls :: classes, w =>
    if cls.ID = 1 then removeAllClassesLoop env classes w
    else
      match env.RemoveClass cls.ID w.store with
      | (some err, store) => (some err, { w with store := store }.log (.RemoveClass cls.ID (some err)))
      | (none, store) =>
        removeAllClassesLoop env classes ({ w with store := store }.log (.RemoveClass cls.ID none))

/-- `removeAllClasses`. -/
def removeAllClasses {σ F T : Type} (env : Env σ F T) (w : World σ F T) :
    Option Err × World σ F T :=
  let w1 := w.log (.LoadAllClasses (env.LoadAllClasses w.store))
  match env.LoadAllClasses w.store with
  | .error err => (some err, w1)
  | .ok classes => removeAllClassesLoop env classes w1

/-! ### `cmd/proji/cmd/classImport.go` -/

/-- `importClassFromConfig`. -/
def importClassFromConfig {σ F T : Type} (env : Env σ F T) (config : String)
    (w : World σ F T) : Option Err × World σ F T :=
  let cls := env.NewClass "" "" false
  match env.ImportFromConfig config cls w.fs with
  | (some err, _) => (some err, w.log (.ImportFromConfig config (some err)))
  | (none, cls) =>
    let w := w.log (.ImportFromConfig config none)
    let r := env.SaveClass cls w.store
    (r.1, { w with store := r.2 }.log (.SaveClass cls r.1))

/-! ### Projections of a trace -/

/-- The class IDs handed to `RemoveClass`, with the results, in order. -/
def removeClassCalls : List Event → List (Nat × Option Err)
  | [] => []
  | .RemoveClass id r :: t => (id, r) :: removeClassCalls t
  | _ :: t => removeClassCalls t

/-- The IDs of the loaded classes other than the reserved class, in order. -/
def removableIDs (classes : List Class) : List Nat :=
  (classes.filter (fun c => c.ID != 1)).map (·.ID)

/-- The paths handed to `RemoveProject`, with the results, in order. -/
def removeProjectCalls : List Event → List (String × Option Err)
  | [] => []
  | .RemoveProject path r :: t => (path, r) :: removeProjectCalls t
  | _ :: t => removeProjectCalls t

/-- The classes handed to `SaveClass`, in order. -/
def saveClassCalls : List Event → List Class
  | [] => []
  | .SaveClass cls _ :: t => cls :: saveClassCalls t
  | _ :: t => saveClassCalls t

/-- The projects on which `Project.Create` was invoked, in order. -/
def createCalls : List Event → List Project
  | [] => []
  | .Create project _ _ _ :: t => project :: createCalls t
  | _ :: t => createCalls t

end Commands

namespace Commands

/-! ### A concrete repository

The storage service is not part of the command handlers; to evaluate them on
concrete inputs it is modelled from the interface description. -/

/-- Modelled from the spec: the Repository boundary (section 6), a keyed store
of projects and classes, none of whose implementation is among the handlers'
files.  `broken` lists the project paths whose record the store fails to
delete (an input/output error of the store). -/
structure Repo where
  projects : List Project
  classes : List Class
  broken : List String
deriving DecidableEq, Repr

/-- Modelled from the spec: `SaveProject(Project) -> error`, which "fails
`AlreadyExists` if Path already registered"; the repository's implementation
is missing. -/
def Repo.SaveProject (project : Project) (repo : Repo) : Option Err × Project × Repo :=
  if repo.projects.any (fun p => p.Path == project.Path) then
    (some "Project already exists", project, repo)
  else (none, project, { repo with projects := repo.projects ++ [project] })

/-- Modelled from the spec: `LoadProject(path) -> (Project, error)`; the
repository's implementation is missing. -/
def Repo.LoadProject (path : String) (repo : Repo) : Except Err Project :=
  match repo.projects.find? (fun p => p.Path == path) with
  | some p => .ok p
  | none => .error "project not found"

/-- Modelled from the spec: `RemoveProject(path) -> error`, which "deletes the
persisted record only"; the repository's implementation is missing. -/
def Repo.RemoveProject (path : String) (repo : Repo) : Option Err × Repo :=
  if path ∈ repo.broken then (some "disk I/O error", repo)
  else if repo.projects.any (fun p => p.Path == path) then
    (none, { repo with projects := repo.projects.filter (fun p => p.Path != path) })
  else (some "project not found", repo)

/-- Modelled from the spec: `LoadClassIDByLabel(label) -> (id, error)` (fails
`NotFound`); the repository's implementation is missing. -/
def Repo.LoadClassIDByLabel (label : String) (repo : Repo) : Except Err Nat :=
  match repo.classes.find? (fun c => c.Label == label) with
  | some c => .ok c.ID
  | none => .error "class not found"

/-- Modelled from the spec: `RemoveClass(id) -> error` (fails with `Protected`
for id 1); the repository's implementation is missing. -/
def Repo.RemoveClass (id : Nat) (repo : Repo) : Option Err × Repo :=
  if id = 1 then (some "class is protected", repo)
  else (none, { repo with classes := repo.classes.filter (fun c => c.ID != id) })

/-- Modelled from the spec: `SaveClass(Class) -> error`, with labels unique
across the classes of the repository; the repository's implementation is
missing. -/
def Repo.SaveClass (cls : Class) (repo : Repo) : Option Err × Repo :=
  if repo.classes.any (fun c => c.Label == cls.Label) then (some "class already exists", repo)
  else (none, { repo with classes := repo.classes ++ [cls] })

/-- A concrete environment over `Repo`.  The file system is the list of
project roots created so far, the terminal is the list of answers the user
will give.  `Class.ImportFromConfig` accepts the one config file
`example.toml`. -/
def repoEnv : Env Repo (List String) (List Bool) where
  SaveProject := Repo.SaveProject
  LoadProject := Repo.LoadProject
  LoadAllProjects := fun repo => .ok repo.projects
  RemoveProject := Repo.RemoveProject
  LoadClassIDByLabel := Repo.LoadClassIDByLabel
  LoadAllClasses := fun repo => .ok repo.classes
  RemoveClass := Repo.RemoveClass
  SaveClass := Repo.SaveClass
  Create := fun project _ _ fs =>
    if project.Path ∈ fs then (some "file exists", fs) else (none, fs ++ [project.Path])
  ImportFromConfig := fun config cls _ =>
    if config = "example.toml" then (none, { cls with Name := "example", Label := "exp" })
    else (some "unsupported config type", cls)
  WantTo := fun _ answers => (answers.headD false, answers.tail)
  NewProject := fun name path cls => { ID := 0, Name := name, Path := path, ClassID := cls.ID }
  NewClass := fun name label isDefault =>
    { ID := 0, Name := name, Label := label, IsDefault := isDefault,
      Folders := [], Files := [], Scripts := [] }
  Join := fun dir name => dir ++ "/" ++ name

/-- The reserved class. -/
def defaultClass : Class :=
  { ID := 1, Name := "default", Label := "default", IsDefault := true,
    Folders := [], Files := [], Scripts := [] }

/-- An ordinary class. -/
def expClass : Class :=
  { ID := 2, Name := "example", Label := "exp", IsDefault := false,
    Folders := [("exampleFolder/", ""), ("foo/bar/", "")],
    Files := [("README.md", "README.md"), ("exampleFolder/test.txt", "")], Scripts := [] }

/-- A repository with two registered projects; the record of the first cannot
be deleted. -/
def exampleRepo : Repo where
  projects := [⟨1, "one", "/home/u/one", 2⟩, ⟨2, "two", "/home/u/two", 2⟩]
  classes := [defaultClass, expClass]
  broken := ["/home/u/one"]

/-- The world around a command started over `exampleRepo`. -/
def exampleWorld : World Repo (List String) (List Bool) :=
  { store := exampleRepo, fs := ["/home/u/one", "/home/u/two"], tty := [], trace := [] }

end Commands

/-! ## `CreateProject` and the loop of the create command -/

/-- The database file behind the handle `setup.db`: the class tables read by
the phases and the table `class_label` (label, class id), which only
`Setup.isLabelSupported` reads. -/
structure Database extends DB where
  class_label : List (String × Nat)

/-- What `CreateProject` reads from its surroundings before the projects loop:
`helper.GetConfigDir()`, the config value `database.name` (`none` when it is
not a string), the error of `os.Getwd()` if it fails, `sql.Open` for a
database path, `strings.ToLower` and `helper.ProjectHeader`. -/
structure Host where
  GetConfigDir : String
  databaseName : Option String
  getwdFault : Option Err
  sqlOpen : String → Except Err Database
  ToLower : String → String
  ProjectHeader : String → String

/-- The statement of `Setup.isLabelSupported`. -/
def sqlLabel : String := "SELECT class_id FROM class_label WHERE label = ?"

/-- `Setup.isLabelSupported`: the class id of the first row with the label, an
error when the statement fails or no row has the label. -/
def isLabelSupported (db : Database) (label : String) : Except Err Nat :=
  match db.fault sqlLabel with
  | some err => .error err
  | none =>
    match db.class_label.find? (fun row => row.1 == label) with
    | none => .error "sql: no rows in result set"
    | some row => .ok row.2

/-- `Setup.init` on the setup built by `CreateProject` from `Owd`, `ConfigDir`,
`DatabaseName` and `Label`. -/
def Setup.init (host : Host) (Owd ConfigDir DatabaseName Label : String) : Except Err Setup :=
  let dbDir := ConfigDir ++ "db/"
  let templatesDir := ConfigDir ++ "templates/"
  let scriptsDir := ConfigDir ++ "scripts/"
  match host.sqlOpen (dbDir ++ DatabaseName) with
  | .error err => .error err
  | .ok db =>
    match isLabelSupported db Label with
    | .error err => .error err
    | .ok id =>
      .ok { Owd := Owd, ConfigDir := ConfigDir, DatabaseName := DatabaseName, Label := Label,
            templatesDir := templatesDir, scriptsDir := scriptsDir, dbDir := dbDir,
            db := db.toDB, projectID := id }

/-- The projects loop of `CreateProject`. -/
def projectsLoop {F : Type} (sys : Sys F) (host : Host) (newSetup : Setup) :
    List String → Proc F → Proc F
  | [], s => s
  | projectName :: projects, s =>
    let s := s.println (host.ProjectHeader projectName)
    let newProject : Project := { id := "", Name := projectName, Data := newSetup }
    match create sys newProject s with
    | (some err, s) => projectsLoop sys host newSetup projects (s.println err)
    | (none, s) => projectsLoop sys host newSetup projects s

/-- `CreateProject`.  The deferred `newSetup.stop()` closes the database
handle and has no effect on the state modelled here. -/
def CreateProject {F : Type} (sys : Sys F) (host : Host) (label : String)
    (projects : List String) (s : Proc F) : Option Err × Proc F :=
  let configDir := host.GetConfigDir
  match host.databaseName with
  | none => (some "could not read database name from config file", s)
  | some databaseName =>
    match host.getwdFault with
    | some err => (some err, s)
    | none =>
      let cwd := s.cwd
      let label := host.ToLower label
      match Setup.init host cwd configDir databaseName label with
      | .error err => (some err, s)
      | .ok newSetup => (none, projectsLoop sys host newSetup projects s)

/-- The paths handed to `os.Mkdir` in a trace, in order.  Only
`createProjectFolder` issues this call. -/
def mkdirCalls : List Event → List String
  | [] => []
  | .Sys _ (.Mkdir path _) _ :: t => path :: mkdirCalls t
  | _ :: t => mkdirCalls t

/-- A trace segment is one turn of the projects loop for `name`: the project
header, the announcement of the root folder phase and the `os.Mkdir` of the
project folder, followed by events among which there is no other `os.Mkdir`. -/
def IsCreateTurn (host : Host) (name : String) (seg : List Event) : Prop :=
  ∃ cwd r rest, seg = Event.Print (host.ProjectHeader name) ::
      Event.Print "> Creating project folder..." ::
      Event.Sys cwd (.Mkdir name ModePerm) r :: rest ∧
    mkdirCalls rest = []

/-- A call other than `Mkdir`. -/
def SysCall.notMkdir : SysCall → Bool
  | .Mkdir _ _ => false
  | _ => true

/-- The database file of the examples: the tables of `exampleDB` and the label
`exp` of class 2. -/
def exampleDatabase : Database := { exampleDB with class_label := [("exp", 2)] }

/-- An example host, whose database is `exampleDatabase`. -/
def exampleHost : Host where
  GetConfigDir := "/cfg/"
  databaseName := some "proji.sqlite3"
  getwdFault := none
  sqlOpen := fun path =>
    if path = "/cfg/db/proji.sqlite3" then .ok exampleDatabase
    else .error "unable to open database file"
  ToLower := fun s => ⟨s.data.map Char.toLower⟩
  ProjectHeader := fun name => "Project: " ++ name

namespace Commands

/-- The further collaborators of `createCmd.RunE`: `projiEnv.Svc.LoadClass`,
`projiEnv.ConfigFolderPath` and `os.Getwd`. -/
structure CreateEnv (σ F T : Type) extends Env σ F T where
  LoadClass : String → σ → Except Err Class
  ConfigFolderPath : String
  Getwd : Except Err String

/-- `replaceProject`. -/
def replaceProject {σ F T : Type} (env : Env σ F T) (name path configPath : String)
    (cls : Class) (w : World σ F T) : Option Err × World σ F T :=
  match env.RemoveProject (env.Join path name) w.store with
  | (some err, store) =>
    (some err, { w with store := store }.log (.RemoveProject (env.Join path name) (some err)))
  | (none, store) =>
    createProject env name path configPath cls
      ({ w with store := store }.log (.RemoveProject (env.Join path name) none))

/-- The loop of `createCmd.RunE` over the project names. -/
def createCmdLoop {σ F T : Type} (env : Env σ F T) (cwd configPath : String) (cls : Class) :
    List String → World σ F T → World σ F T
  | [], w => w
  | name :: projects, w =>
    let w := w.log (.Printf ("\n> Creating project " ++ name ++ "\n"))
    match createProject env name cwd configPath cls w with
    | (some err, w) =>
      let w := w.log (.Printf (" -> Failed: " ++ err ++ "\n"))
      if err = "Project already exists" then
        let a := env.WantTo "> Do you want to replace it?" w.tty
        let w := { w with tty := a.2 }.log (.WantTo "> Do you want to replace it?" a.1)
        if !a.1 then createCmdLoop env cwd configPath cls projects w
        else
          match replaceProject env name cwd configPath cls w with
          | (some err, w) =>
            createCmdLoop env cwd configPath cls projects
              (w.log (.Printf ("> Replacing project " ++ name ++ " failed: " ++ err ++ "\n")))
          | (none, w) =>
            createCmdLoop env cwd configPath cls projects
              (w.log (.Printf ("> Project " ++ name ++ " was successfully replaced\n")))
      else createCmdLoop env cwd configPath cls projects w
    | (none, w) =>
      createCmdLoop env cwd configPath cls projects
        (w.log (.Printf ("> Project " ++ name ++ " was successfully created\n")))

/-- `createCmd.RunE`.  The class is loaded once for all projects; loading
reads the repository and is not traced. -/
def createCmd_RunE {σ F T : Type} (env : CreateEnv σ F T) (args : List String)
    (w : World σ F T) : Option Err × World σ F T :=
  match args with
  | label :: name :: names =>
    match env.Getwd with
    | .error err => (some err, w)
    | .ok cwd =>
      match env.LoadClass label w.store with
      | .error err => (some err, w)
      | .ok cls =>
        (none, createCmdLoop env.toEnv cwd env.ConfigFolderPath cls (name :: names) w)
  | _ => (some "at least one label and name have to be given", w)

/-- The projects handed to `SaveProject`, in order. -/
def saveProjectCalls : List Event → List Project
  | [] => []
  | .SaveProject project _ :: t => project :: saveProjectCalls t
  | _ :: t => saveProjectCalls t

/-- A trace segment is one turn of the create command's loop for `name`: the
announcement, then the `SaveProject` call with which `createProject` starts
for the project of that name, followed by events in which every further
`SaveProject` call is for the same project. -/
def IsCreateCmdTurn {σ F T : Type} (env : Env σ F T) (cwd : String) (cls : Class)
    (name : String) (seg : List Event) : Prop :=
  ∃ r rest, seg = Event.Printf ("\n> Creating project " ++ name ++ "\n") ::
      Event.SaveProject (env.NewProject name (env.Join cwd name) cls) r :: rest ∧
    ∀ p ∈ saveProjectCalls rest, p = env.NewProject name (env.Join cwd name) cls

/-- Modelled from the spec: `LoadClass(label|id) -> (Class, error)` of the
Repository boundary (section 6), whose implementation is missing. -/
def Repo.LoadClass (label : String) (repo : Repo) : Except Err Class :=
  match repo.classes.find? (fun c => c.Label == label) with
  | some c => .ok c
  | none => .error "class not found"

/-- The concrete environment of the create command over `Repo`, started in
`/home/u`. -/
def repoCreateEnv : CreateEnv Repo (List String) (List Bool) :=
  { repoEnv with
    LoadClass := Repo.LoadClass
    ConfigFolderPath := "/cfg/"
    Getwd := .ok "/home/u" }

end Commands

/-! ## Export and import of a class (`pkg/proji/storage/item`)

The methods `Class.Export` and `Class.ImportFromConfig` are called by the
command handlers and exercised by `class_test.go`, but their file is not
among the sources; they are modelled from the interface description. -/

namespace Commands

/-- Modelled from the spec: a value of the declarative config format (section
6), the text of a `source` or of an info field, or the `runAsSudo` flag of a
script; the format's implementation is missing. -/
inductive ConfigValue
  | str (s : String)
  | bool (b : Bool)
deriving DecidableEq, Repr

/-- Modelled from the spec: the declarative config format, "a text document
with three named sections" (section 6), as its named sections, each an ordered
list of `key = value` pairs.  The spec does not describe the concrete syntax
of the text, which is not modelled; the format's implementation is missing. -/
abbrev ConfigDoc := List (String × List (String × ConfigValue))

/-- Modelled from the spec: the config files on disk, by path, and the
destination directories that are not writable; stands for the file system
under the missing `Class.Export` and `Class.ImportFromConfig`. -/
structure ConfigFS where
  files : List (String × ConfigDoc)
  readOnly : List String
deriving DecidableEq, Repr

/-- Modelled from the spec: the document that the missing `Class.Export`
writes for a class: section `info` with `name` and `label`, sections `folders`
and `files` with the `target = source` pairs, section `scripts` with the
`name, runAsSudo` pairs, each in the order of the class. -/
def Class.toDoc (c : Class) : ConfigDoc :=
  [("info", [("name", .str c.Name), ("label", .str c.Label)]),
   ("folders", c.Folders.map (fun e => (e.1, .str e.2))),
   ("files", c.Files.map (fun e => (e.1, .str e.2))),
   ("scripts", c.Scripts.map (fun e => (e.1, .bool e.2)))]

/-- Modelled from the spec: the missing `Class.Export`,
`Export(class, destinationDir) -> (filePath, error)`, which "serializes a Class
to the declarative config format at `destinationDir/<label>.<ext>`", "fails
with `FilesystemError` if the destination is not writable" and "overwrites
silently if the target file already exists".  The extension is that of the
config files of the tests, `toml`. -/
def Class.Export (c : Class) (destinationDir : String) (fs : ConfigFS) :
    Except Err String × ConfigFS :=
  if destinationDir ∈ fs.readOnly then (.error "FilesystemError: destination not writable", fs)
  else
    let filePath := destinationDir ++ "/" ++ c.Label ++ ".toml"
    (.ok filePath,
      { fs with files := (filePath, c.toDoc) :: fs.files.filter (fun f => f.1 != filePath) })

/-- Modelled from the spec: reading the `target = source` pairs of a section
in the missing importer; a pair whose value is not text is malformed. -/
def stringEntries : List (String × ConfigValue) → Except Err (List (String × String))
  | [] => .ok []
  | (key, .str value) :: rest =>
    match stringEntries rest with
    | .ok entries => .ok ((key, value) :: entries)
    | .error err => .error err
  | (_, .bool _) :: _ => .error "ImportError: malformed entry"

/-- Modelled from the spec: reading the `name, runAsSudo(bool)` pairs of the
section `scripts` in the missing importer; a pair whose value is not a boolean
is malformed. -/
def boolEntries : List (String × ConfigValue) → Except Err (List (String × Bool))
  | [] => .ok []
  | (key, .bool value) :: rest =>
    match boolEntries rest with
    | .ok entries => .ok ((key, value) :: entries)
    | .error err => .error err
  | (_, .str _) :: _ => .error "ImportError: malformed entry"

/-- Modelled from the spec: the missing `Class.ImportFromConfig`
(`FromConfig(path)`), which "parses a declarative file into a Class" and
"fails with `ImportError` on malformed syntax or missing required
`label`/`name` fields" (`info`: `name`, `label`, "required, non-empty"); the
label is "normalized to lowercase on creation/import", by `toLower`.  The
method fills the class it is called on and leaves it as it was when it fails,
as `TestClassImportData` expects. -/
def Class.ImportFromConfig (toLower : String → String) (config : String) (cls : Class)
    (fs : ConfigFS) : Option Err × Class :=
  match fs.files.lookup config with
  | none => (some "ImportError: cannot read config file", cls)
  | some doc =>
    match doc.lookup "info" with
    | none => (some "ImportError: missing section info", cls)
    | some info =>
      match info.lookup "name", info.lookup "label" with
      | some (.str name), some (.str label) =>
        if name = "" ∨ label = "" then (some "ImportError: empty name or label", cls)
        else
          match stringEntries ((doc.lookup "folders").getD []),
              stringEntries ((doc.lookup "files").getD []),
              boolEntries ((doc.lookup "scripts").getD []) with
          | .ok folders, .ok files, .ok scripts =>
            (none, { cls with Name := name, Label := toLower label, Folders := folders,
                              Files := files, Scripts := scripts })
          | _, _, _ => (some "ImportError: malformed entry", cls)
      | _, _ => (some "ImportError: missing name or label", cls)

/-- ASCII lowercasing, the `toLower` of the examples. -/
def asciiLower (s : String) : String := ⟨s.data.map Char.toLower⟩

/-- The class built by `item.NewClass("", "", false)` in the import handlers. -/
def blankClass : Class := repoEnv.NewClass "" "" false

/-- A class whose label is not lowercase. -/
def upperClass : Class := { expClass with Label := "Exp" }

/-- A disk without config files, every directory writable. -/
def emptyConfigFS : ConfigFS := { files := [], readOnly := [] }

end Commands

/-! ## Theorems -/

/-! ### Traces -/

theorem commandsRun_append (t u : List Event) :
    commandsRun (t ++ u) = commandsRun t ++ commandsRun u := by
  induction t with
  | nil => rfl
  | cons e t ih =>
    cases e with
    | Print text => simpa [commandsRun] using ih
    | Ret ph r => simpa [commandsRun] using ih
    | Sys cwd call r =>
      cases call <;> simpa [commandsRun] using ih

theorem sys_trace {F : Type} (sys : Sys F) (call : SysCall) (s : Proc F) :
    (s.sys sys call).2.trace = s.trace ++ [Event.Sys s.cwd call (s.sys sys call).1] := rfl

/-! ### Script order (C1) -/

theorem sqlLE_total (a b : Option Nat) : sqlLE a b ∨ sqlLE b a := by
  cases a <;> cases b <;> simp [sqlLE]
  exact Nat.le_total _ _

theorem sqlLE_trans {a b c : Option Nat} (hab : sqlLE a b) (hbc : sqlLE b c) : sqlLE a c := by
  cases a <;> cases b <;> cases c <;> simp_all [sqlLE]
  exact Nat.le_trans hab hbc

instance classIdDesc.isTotal : IsTotal ScriptRow classIdDesc :=
  ⟨fun a b => sqlLE_total b.class_id a.class_id⟩

instance classIdDesc.isTrans : IsTrans ScriptRow classIdDesc :=
  ⟨fun _ _ _ hab hbc => sqlLE_trans hbc hab⟩

/-- In the rows returned by the script query no reserved-class row stands
before a row of a class. -/
theorem selectScripts_pairwise (table : List ScriptRow) (pid : Nat) :
    (selectScripts table pid).Pairwise (fun a b => a.class_id = none → b.class_id = none) := by
  have hs : (selectScripts table pid).Pairwise classIdDesc :=
    List.sorted_insertionSort classIdDesc _
  refine hs.imp ?_
  intro a b hab ha
  unfold classIdDesc at hab
  rw [ha] at hab
  cases hb : b.class_id with
  | none => rfl
  | some n => rw [hb] at hab; exact absurd hab (by simp [sqlLE])

/-- The script loop starts the commands of an initial segment of its rows, in
order, and of all of them when it returns no error. -/
theorem runScriptsLoop_commands {F : Type} (sys : Sys F) (project : Project)
    (rows : List ScriptRow) (s : Proc F) :
    ∃ ran : List ScriptRow, ran <+: rows ∧
      commandsRun (runScriptsLoop sys project rows s).2.trace
        = commandsRun s.trace ++ ran.map (scriptCommand project.Data.scriptsDir) ∧
      ((runScriptsLoop sys project rows s).1 = none → ran = rows) := by
  induction rows generalizing s with
  | nil => exact ⟨[], List.prefix_refl _, by simp [runScriptsLoop], fun _ => rfl⟩
  | cons row rows ih =>
    have ht := sys_trace sys (.Run (scriptCommand project.Data.scriptsDir row)) s
    cases hr : (s.sys sys (.Run (scriptCommand project.Data.scriptsDir row))).1 with
    | some err =>
      refine ⟨[row], ?_, ?_, ?_⟩
      · exact List.prefix_iff_eq_append.mpr (by simp)
      · have : runScriptsLoop sys project (row :: rows) s
            = (some err, (s.sys sys (.Run (scriptCommand project.Data.scriptsDir row))).2) := by
          rw [runScriptsLoop]; split
          · next e s' h => rw [h] at hr; simp at hr; subst hr; simp [h]
          · next s' h => rw [h] at hr; simp at hr
        rw [this]; simp only
        rw [ht, commandsRun_append]; simp [commandsRun]
      · intro h
        have : runScriptsLoop sys project (row :: rows) s
            = (some err, (s.sys sys (.Run (scriptCommand project.Data.scriptsDir row))).2) := by
          rw [runScriptsLoop]; split
          · next e s' h => rw [h] at hr; simp at hr; subst hr; simp [h]
          · next s' h => rw [h] at hr; simp at hr
        rw [this] at h; simp at h
    | none =>
      have hstep : runScriptsLoop sys project (row :: rows) s
          = runScriptsLoop sys project rows
              (s.sys sys (.Run (scriptCommand project.Data.scriptsDir row))).2 := by
        rw [runScriptsLoop]; split
        · next e s' h => rw [h] at hr; simp at hr
        · next s' h => simp [h]
      obtain ⟨ran, hpre, htr, hall⟩ :=
        ih (s.sys sys (.Run (scriptCommand project.Data.scriptsDir row))).2
      refine ⟨row :: ran, ?_, ?_, ?_⟩
      · exact (List.prefix_cons_inj row).mpr hpre
      · rw [hstep, htr, ht, commandsRun_append]; simp [commandsRun]
      · intro h; rw [hstep] at h; rw [hall h]

/-- C1 (as amended): `runScripts` starts the commands of an initial segment of
the rows selected by its query, in query order (all of them when it returns
no error), and in that order the target-class scripts come first and the
reserved-class scripts (`class_id` NULL) last: no reserved-class script is run
before a target-class one. -/
theorem runScripts_target_class_first {F : Type} (sys : Sys F) (project : Project)
    (s : Proc F) :
    ∃ ran : List ScriptRow,
      ran <+: selectScripts project.Data.db.class_script project.Data.projectID ∧
      commandsRun (runScripts sys project s).2.trace
        = commandsRun s.trace ++ ran.map (scriptCommand project.Data.scriptsDir) ∧
      ((runScripts sys project s).1 = none →
        ran = selectScripts project.Data.db.class_script project.Data.projectID) ∧
      (∀ row ∈ ran, row ∈ project.Data.db.class_script ∧
        (row.class_id = none ∨ row.class_id = some project.Data.projectID)) ∧
      ran.Pairwise (fun a b => a.class_id = none → b.class_id = none) := by
  have hmem : ∀ row ∈ selectScripts project.Data.db.class_script project.Data.projectID,
      row ∈ project.Data.db.class_script ∧
        (row.class_id = none ∨ row.class_id = some project.Data.projectID) := by
    intro row hrow
    have := (List.mem_insertionSort classIdDesc).mp hrow
    simpa using this
  unfold runScripts DB.query
  cases hf : project.Data.db.fault sqlScripts with
  | some err =>
    exact ⟨[], List.nil_prefix, by simp, by simp, by simp, List.Pairwise.nil⟩
  | none =>
    obtain ⟨ran, hpre, htr, hall⟩ := runScriptsLoop_commands sys project
      (selectScripts project.Data.db.class_script project.Data.projectID) s
    exact ⟨ran, hpre, htr, hall, fun row hrow => hmem row (hpre.subset hrow),
      (selectScripts_pairwise _ _).sublist hpre.sublist⟩

/-- C1, as stated, fails: with the reserved-class script `global.sh` and the
class script `local.sh` in the table and every script succeeding, the query
returns `local.sh` first and `runScripts` runs `local.sh` before `global.sh`. -/
theorem runScripts_global_not_first :
    selectScripts exampleDB.class_script 2
      = [⟨some 2, "local.sh", false⟩, ⟨none, "global.sh", false⟩] ∧
    (runScripts (posix copyFile runOk) exampleProject exampleProc).1 = none ∧
    commandsRun (runScripts (posix copyFile runOk) exampleProject exampleProc).2.trace
      = [⟨"/cfg/scripts/local.sh", []⟩, ⟨"/cfg/scripts/global.sh", []⟩] := by
  decide

/-! ### Placeholder substitution (C2) -/

theorem span_no_dollar (t : List Char) (h : '$' ∉ t) : t.span (· != '$') = (t, []) := by
  rw [List.span_eq_take_drop]
  have hall : ∀ c ∈ t, (c != '$') = true := by
    intro c hc
    have : c ≠ '$' := fun e => h (e ▸ hc)
    simpa using this
  rw [List.takeWhile_eq_self_iff.mpr hall, List.dropWhile_eq_nil_iff.mpr hall]

/-- A template without `$` expands to itself. -/
theorem expand_no_dollar (isLetter isDigit : Char → Bool) (whole : List Char) (fuel : Nat)
    (t : List Char) (h : '$' ∉ t) : expand isLetter isDigit whole fuel t = t := by
  cases fuel with
  | zero => rfl
  | succ n => rw [expand, span_no_dollar t h]

/-- For a project name without `$` the substitution is the plain replacement. -/
theorem ReplaceAllString_verbatim (isLetter isDigit : Char → Bool) (pat src name : String)
    (h : '$' ∉ name.data) :
    ReplaceAllString isLetter isDigit pat src name = replaceVerbatim pat src name := by
  unfold ReplaceAllString replaceVerbatim
  rw [expand_no_dollar _ _ _ _ _ h]

/-- C2 at a failing input: for the project name `cash$app` the folder target
`src/__PROJECT_NAME__/` becomes `src/cash/` (the `$app` is expanded as a
reference to a capture group that does not exist), not `src/cash$app/` as
plain replacement gives, while the project folder itself is created under the
name `cash$app`; for the name `demo` the target becomes `src/demo/`. -/
theorem createSubFolders_expands_dollar :
    ReplaceAllString Char.isAlpha Char.isDigit PROJECT_NAME "src/__PROJECT_NAME__/" "cash$app"
      = "src/cash/" ∧
    replaceVerbatim PROJECT_NAME "src/__PROJECT_NAME__/" "cash$app" = "src/cash$app/" ∧
    sysCalls (create (posix copyFile runOk) dollarProject exampleProc).2.trace
      = [.Mkdir "cash$app" ModePerm, .Chdir "cash$app", .MkdirAll "src/cash/" ModePerm,
         .OpenFile "notes.txt" [.O_RDONLY, .O_CREATE] ModePerm,
         .Run ⟨"/cfg/scripts/local.sh", []⟩, .Run ⟨"/cfg/scripts/global.sh", []⟩,
         .Chdir "/home/u"] ∧
    ReplaceAllString Char.isAlpha Char.isDigit PROJECT_NAME "src/__PROJECT_NAME__/" "demo"
      = "src/demo/" := by
  decide

/-! ### Elevated scripts (C7) -/

/-- A script without the `sudo` flag is started as the program at its path. -/
theorem scriptCommand_plain (scriptsDir : String) (row : ScriptRow)
    (h : row.run_as_sudo = false) :
    scriptCommand scriptsDir row = { name := scriptsDir ++ row.name, args := [] } := by
  simp [scriptCommand, h]

/-- C7 at a failing input: for the script row `install.sh` with `run_as_sudo`
set, the program started is the single path `sudo /cfg/scripts/install.sh`
without arguments, not the program `sudo` with the script path as argument. -/
theorem runScripts_sudo_command :
    commandsRun (runScripts (posix copyFile runOk) sudoProject exampleProc).2.trace
      = [{ name := "sudo /cfg/scripts/install.sh", args := [] }] ∧
    scriptCommand "/cfg/scripts/" ⟨some 2, "install.sh", true⟩
      ≠ { name := "sudo", args := ["/cfg/scripts/install.sh"] } := by
  decide

/-! ### The phases of `create` (C5, C9) -/

theorem phaseReturns_append (t u : List Event) :
    phaseReturns (t ++ u) = phaseReturns t ++ phaseReturns u := by
  induction t with
  | nil => rfl
  | cons e t ih => cases e <;> simpa [phaseReturns] using ih

/-- `createBody` is the fail-fast sequence of its four phases. -/
theorem createBody_eq_seqPhases {F : Type} (sys : Sys F) (project : Project) (s : Proc F) :
    createBody sys project s = seqPhases (bodyPhases sys project) s := by
  simp only [createBody, bodyPhases, seqPhases]

theorem sys_quiet_step {F : Type} (sys : Sys F) (call : SysCall) (h : call.keepsCwd = true)
    (s : Proc F) : (s.sys sys call).2.cwd = s.cwd := by
  cases call <;> first | rfl | simp [SysCall.keepsCwd] at h

theorem createSubFoldersLoop_eq {F : Type} (sys : Sys F) (project : Project)
    (rows : List String) (s : Proc F) :
    createSubFoldersLoop sys project rows s
      = forEachCall sys (fun t => .MkdirAll
          (ReplaceAllString sys.isLetter sys.isDigit PROJECT_NAME t project.Name) ModePerm)
          rows s := by
  induction rows generalizing s with
  | nil => rfl
  | cons row rows ih => simp only [createSubFoldersLoop, forEachCall, ih]

theorem createFilesLoop_eq {F : Type} (sys : Sys F) (project : Project)
    (rows : List String) (s : Proc F) :
    createFilesLoop sys project rows s
      = forEachCall sys (fun t => .OpenFile
          (ReplaceAllString sys.isLetter sys.isDigit PROJECT_NAME t project.Name)
          [.O_RDONLY, .O_CREATE] ModePerm) rows s := by
  induction rows generalizing s with
  | nil => rfl
  | cons row rows ih => simp only [createFilesLoop, forEachCall, ih]

theorem copyTemplatesLoop_eq {F : Type} (sys : Sys F) (project : Project)
    (rows : List (String × String)) (s : Proc F) :
    copyTemplatesLoop sys project rows s
      = forEachCall sys (fun t => .Copy (project.Data.templatesDir ++ t.2)
          (ReplaceAllString sys.isLetter sys.isDigit PROJECT_NAME t.1 project.Name)) rows s := by
  induction rows generalizing s with
  | nil => rfl
  | cons row rows ih =>
    obtain ⟨target, src⟩ := row
    simp only [copyTemplatesLoop, forEachCall, ih]

theorem runScriptsLoop_eq {F : Type} (sys : Sys F) (project : Project)
    (rows : List ScriptRow) (s : Proc F) :
    runScriptsLoop sys project rows s
      = forEachCall sys (fun row => .Run (scriptCommand project.Data.scriptsDir row)) rows s := by
  induction rows generalizing s with
  | nil => rfl
  | cons row rows ih => simp only [runScriptsLoop, forEachCall, ih]

/-- One step of a row loop: either the call fails and the loop returns its
error, or the loop goes on with the remaining rows. -/
theorem forEachCall_cons {F α : Type} (sys : Sys F) (mk : α → SysCall) (row : α)
    (rows : List α) (s : Proc F) :
    (∃ err, (s.sys sys (mk row)).1 = some err ∧
        forEachCall sys mk (row :: rows) s = (some err, (s.sys sys (mk row)).2)) ∨
    ((s.sys sys (mk row)).1 = none ∧
        forEachCall sys mk (row :: rows) s = forEachCall sys mk rows (s.sys sys (mk row)).2) := by
  cases hr : (s.sys sys (mk row)).1 with
  | some err =>
    left
    refine ⟨err, rfl, ?_⟩
    rw [forEachCall]; split
    · next e s' h => rw [h] at hr; simp at hr; subst hr; simp [h]
    · next s' h => rw [h] at hr; simp at hr
  | none =>
    right
    refine ⟨rfl, ?_⟩
    rw [forEachCall]; split
    · next e s' h => rw [h] at hr; simp at hr
    · next s' h => simp [h]

theorem forEachCall_quiet {F α : Type} (sys : Sys F) (mk : α → SysCall)
    (hmk : ∀ a, (mk a).keepsCwd = true) (rows : List α) : Quiet (forEachCall sys mk rows) := by
  induction rows with
  | nil => intro s; exact ⟨rfl, [], by simp [forEachCall], by simp⟩
  | cons row rows ih =>
    intro s
    have hc := sys_quiet_step sys (mk row) (hmk row) s
    have ht := sys_trace sys (mk row) s
    rcases forEachCall_cons sys mk row rows s with ⟨err, _, heq⟩ | ⟨_, heq⟩
    · rw [heq]
      exact ⟨hc, [_], ht, by simp⟩
    · rw [heq]
      obtain ⟨hcwd, U, hU, hall⟩ := ih (s.sys sys (mk row)).2
      refine ⟨hcwd.trans hc, Event.Sys s.cwd (mk row) (s.sys sys (mk row)).1 :: U,
        by rw [hU, ht]; simp, ?_⟩
      intro e he
      rcases List.mem_cons.mp he with rfl | he
      · exact ⟨_, _, rfl⟩
      · rw [hc] at hall; exact hall e he

theorem createSubFolders_quiet {F : Type} (sys : Sys F) (project : Project) :
    Quiet (createSubFolders sys project) := by
  intro s
  unfold createSubFolders
  cases hq : project.Data.db.query sqlSubFolders
      (selectPlain project.Data.db.class_folder project.Data.projectID) with
  | error err => exact ⟨rfl, [], by simp, by simp⟩
  | ok rs =>
    simp only
    rw [createSubFoldersLoop_eq]
    apply forEachCall_quiet
    intro _; rfl

theorem createFiles_quiet {F : Type} (sys : Sys F) (project : Project) :
    Quiet (createFiles sys project) := by
  intro s
  unfold createFiles
  cases hq : project.Data.db.query sqlFiles
      (selectPlain project.Data.db.class_file project.Data.projectID) with
  | error err => exact ⟨rfl, [], by simp, by simp⟩
  | ok rs =>
    simp only
    rw [createFilesLoop_eq]
    apply forEachCall_quiet
    intro _; rfl

theorem runScripts_quiet {F : Type} (sys : Sys F) (project : Project) :
    Quiet (runScripts sys project) := by
  intro s
  unfold runScripts
  cases hq : project.Data.db.query sqlScripts
      (selectScripts project.Data.db.class_script project.Data.projectID) with
  | error err => exact ⟨rfl, [], by simp, by simp⟩
  | ok rs =>
    simp only
    rw [runScriptsLoop_eq]
    apply forEachCall_quiet
    intro _; rfl

theorem copyTemplates_quiet {F : Type} (sys : Sys F) (project : Project) :
    Quiet (copyTemplates sys project) := by
  intro s
  unfold copyTemplates
  cases hq : project.Data.db.query sqlTemplateFolders
      (selectTemplates project.Data.db.class_folder project.Data.projectID) with
  | error err => exact ⟨rfl, [], by simp, by simp⟩
  | ok folders =>
    simp only
    have h1 := forEachCall_quiet sys (fun t : String × String =>
        SysCall.Copy (project.Data.templatesDir ++ t.2)
          (ReplaceAllString sys.isLetter sys.isDigit PROJECT_NAME t.1 project.Name))
        (fun _ => rfl) folders s
    rw [← copyTemplatesLoop_eq] at h1
    obtain ⟨hc1, U1, hU1, hall1⟩ := h1
    cases hl : copyTemplatesLoop sys project folders s with
    | mk r s1 =>
      rw [hl] at hc1 hU1
      cases r with
      | some err => exact ⟨hc1, U1, hU1, hall1⟩
      | none =>
        simp only
        cases hq2 : project.Data.db.query sqlTemplateFiles
            (selectTemplates project.Data.db.class_file project.Data.projectID) with
        | error err => exact ⟨hc1, U1, hU1, hall1⟩
        | ok files =>
          simp only
          have h2 := forEachCall_quiet sys (fun t : String × String =>
              SysCall.Copy (project.Data.templatesDir ++ t.2)
                (ReplaceAllString sys.isLetter sys.isDigit PROJECT_NAME t.1 project.Name))
              (fun _ => rfl) files s1
          rw [← copyTemplatesLoop_eq] at h2
          obtain ⟨hc2, U2, hU2, hall2⟩ := h2
          simp only at hc1 hU1
          refine ⟨hc2.trans hc1, U1 ++ U2, by rw [hU2, hU1]; simp, ?_⟩
          intro e he
          rcases List.mem_append.mp he with he | he
          · exact hall1 e he
          · rw [hc1] at hall2; exact hall2 e he

/-- One step of a phase sequence. -/
theorem seqPhases_cons {F : Type} (ph : Phase) (header : String)
    (run : Proc F → Option Err × Proc F)
    (rest : List (Phase × String × (Proc F → Option Err × Proc F))) (s : Proc F) :
    (∃ err, (run (s.println header)).1 = some err ∧
        seqPhases ((ph, header, run) :: rest) s
          = (some err, (Proc.ret ph (run (s.println header))).2)) ∨
    ((run (s.println header)).1 = none ∧
        seqPhases ((ph, header, run) :: rest) s
          = seqPhases rest (Proc.ret ph (run (s.println header))).2) := by
  cases hr : (run (s.println header)).1 with
  | some err =>
    left
    refine ⟨err, rfl, ?_⟩
    simp only [seqPhases, Proc.ret, hr]
  | none =>
    right
    refine ⟨rfl, ?_⟩
    simp only [seqPhases, Proc.ret, hr]

/-- What a fail-fast sequence of quiet phases does: the current directory is
kept and every call is issued from it; the phases return in the given order;
a phase error is the last event and the result; the result is `nil` only when
every phase returned `nil`; an error result is the error of a phase. -/
theorem seqPhases_spec {F : Type}
    (phs : List (Phase × String × (Proc F → Option Err × Proc F)))
    (hq : ∀ x ∈ phs, Quiet x.2.2) (s : Proc F) :
    (seqPhases phs s).2.cwd = s.cwd ∧
    ∃ T, (seqPhases phs s).2.trace = s.trace ++ T ∧
      (∀ c call r, Event.Sys c call r ∈ T → c = s.cwd) ∧
      (phaseReturns T).map Prod.fst <+: phs.map Prod.fst ∧
      (∀ ph e, (ph, some e) ∈ phaseReturns T →
        (seqPhases phs s).1 = some e ∧ ∃ pre, T = pre ++ [Event.Ret ph (some e)]) ∧
      ((seqPhases phs s).1 = none → phaseReturns T = phs.map (fun x => (x.1, none))) ∧
      (∀ e, (seqPhases phs s).1 = some e → ∃ ph, (ph, some e) ∈ phaseReturns T) := by
  induction phs generalizing s with
  | nil =>
    refine ⟨rfl, [], by simp [seqPhases], ?_, ?_, ?_, ?_, ?_⟩ <;> simp [seqPhases, phaseReturns]
  | cons x rest ih =>
    obtain ⟨ph, header, run⟩ := x
    obtain ⟨hc, U, hU, hall⟩ := hq (ph, header, run) (List.mem_cons_self _ _) (s.println header)
    simp only at hc hU
    have hc0 : (s.println header).cwd = s.cwd := rfl
    have hUret : phaseReturns U = [] := by
      clear hU
      induction U with
      | nil => rfl
      | cons e U ihU =>
        obtain ⟨call, r, rfl⟩ := hall e (List.mem_cons_self _ _)
        simpa [phaseReturns] using ihU (fun e he => hall e (List.mem_cons_of_mem _ he))
    have htr : (Proc.ret ph (run (s.println header))).2.trace
        = s.trace ++ (Event.Print header :: U ++ [Event.Ret ph (run (s.println header)).1]) := by
      show (run (s.println header)).2.trace ++ [_] = _
      rw [hU]; simp [Proc.println]
    have hcw : (Proc.ret ph (run (s.println header))).2.cwd = s.cwd := by
      show (run (s.println header)).2.cwd = s.cwd
      rw [hc, hc0]
    have hsys0 : ∀ c call r,
        Event.Sys c call r ∈ Event.Print header :: U ++ [Event.Ret ph (run (s.println header)).1] →
        c = s.cwd := by
      intro c call r hmem
      have hmemU : Event.Sys c call r ∈ U := by
        simpa using hmem
      obtain ⟨call', r', heq⟩ := hall _ hmemU
      rw [hc0] at heq
      injection heq with h1 _ _
    have hret0 : phaseReturns
        (Event.Print header :: U ++ [Event.Ret ph (run (s.println header)).1])
        = [(ph, (run (s.println header)).1)] := by
      rw [List.cons_append]
      simp [phaseReturns, phaseReturns_append, hUret]
    rcases seqPhases_cons ph header run rest s with ⟨err, herr, heq⟩ | ⟨hnone, heq⟩
    · rw [heq]
      refine ⟨hcw, _, htr, hsys0, ?_, ?_, ?_, ?_⟩
      · rw [hret0]; simp
      · intro ph' e hmem
        rw [hret0, herr] at hmem
        simp only [List.mem_singleton, Prod.mk.injEq, Option.some.injEq] at hmem
        obtain ⟨rfl, rfl⟩ := hmem
        exact ⟨rfl, Event.Print header :: U, by simp [herr]⟩
      · intro h; simp at h
      · intro e he
        simp only [Option.some.injEq] at he
        subst he
        exact ⟨ph, by rw [hret0, herr]; simp⟩
    · rw [heq]
      obtain ⟨hc2, T, hT, hsys, hord, hfail, hnil, herr⟩ :=
        ih (fun x hx => hq x (List.mem_cons_of_mem _ hx))
          (Proc.ret ph (run (s.println header))).2
      refine ⟨hc2.trans hcw,
        (Event.Print header :: U ++ [Event.Ret ph (run (s.println header)).1]) ++ T,
        by rw [hT, htr]; simp, ?_, ?_, ?_, ?_, ?_⟩
      · intro c call r hmem
        rcases List.mem_append.mp hmem with h | h
        · exact hsys0 c call r h
        · rw [← hcw]; exact hsys c call r h
      · rw [phaseReturns_append, hret0]
        simpa using (List.prefix_cons_inj ph).mpr hord
      · intro ph' e hmem
        rw [phaseReturns_append, hret0, hnone] at hmem
        simp only [List.singleton_append, List.mem_cons, Prod.mk.injEq, reduceCtorEq,
          and_false, false_or] at hmem
        obtain ⟨h1, pre, hpre⟩ := hfail ph' e hmem
        exact ⟨h1, (Event.Print header :: U ++ [Event.Ret ph (run (s.println header)).1]) ++ pre,
          by rw [hpre]; simp⟩
      · intro h
        rw [phaseReturns_append, hret0, hnil h, hnone]; simp
      · intro e he
        obtain ⟨ph', hmem⟩ := herr e he
        exact ⟨ph', by rw [phaseReturns_append]; exact List.mem_append_right _ hmem⟩

theorem bodyPhases_quiet {F : Type} (sys : Sys F) (project : Project) :
    ∀ x ∈ bodyPhases sys project, Quiet x.2.2 := by
  intro x hx
  simp only [bodyPhases, List.mem_cons, List.mem_singleton, List.not_mem_nil, or_false] at hx
  rcases hx with rfl | rfl | rfl | rfl
  · exact createSubFolders_quiet sys project
  · exact createFiles_quiet sys project
  · exact copyTemplates_quiet sys project
  · exact runScripts_quiet sys project

/-- The three ways in which `create` ends. -/
theorem create_cases {F : Type} (sys : Sys F) (project : Project) (s : Proc F) :
    (∃ err, (afterRoot sys project s).1 = some err ∧
        create sys project s = (some err, (afterRoot sys project s).2)) ∨
    ((afterRoot sys project s).1 = none ∧ ∃ err, (afterChdir sys project s).1 = some err ∧
        create sys project s = (some err, (afterChdir sys project s).2)) ∨
    ((afterRoot sys project s).1 = none ∧ (afterChdir sys project s).1 = none ∧
        create sys project s = ((afterBody sys project s).1,
          ((afterBody sys project s).2.sys sys (.Chdir project.Data.Owd)).2)) := by
  cases h1 : (afterRoot sys project s).1 with
  | some err =>
    left
    refine ⟨err, rfl, ?_⟩
    unfold afterRoot at h1
    simp only [create]
    split
    · next e s' h => rw [h] at h1; simp at h1; subst h1; simp [afterRoot, h]
    · next s' h => rw [h] at h1; simp at h1
  | none =>
    right
    cases h2 : (afterChdir sys project s).1 with
    | some err =>
      left
      refine ⟨rfl, err, rfl, ?_⟩
      unfold afterChdir afterRoot at h2
      unfold afterRoot at h1
      simp only [create]
      split
      · next e s' h => rw [h] at h1; simp at h1
      · next s' h =>
        rw [h] at h2
        simp only at h2
        split
        · next e s'' h' => rw [h'] at h2; simp at h2; subst h2; simp [afterChdir, afterRoot, h, h']
        · next s'' h' => rw [h'] at h2; simp at h2
    | none =>
      right
      refine ⟨rfl, rfl, ?_⟩
      unfold afterChdir afterRoot at h2
      unfold afterRoot at h1
      simp only [create]
      split
      · next e s' h => rw [h] at h1; simp at h1
      · next s' h =>
        rw [h] at h2
        simp only at h2
        split
        · next e s'' h' => rw [h'] at h2; simp at h2
        · next s'' h' => simp [afterBody, afterChdir, afterRoot, h, h']

theorem afterRoot_trace {F : Type} (sys : Sys F) (project : Project) (s : Proc F) :
    (afterRoot sys project s).2.trace = s.trace ++
      [Event.Print "> Creating project folder...",
       Event.Sys s.cwd (.Mkdir project.Name ModePerm) (afterRoot sys project s).1,
       Event.Ret .createProjectFolder (afterRoot sys project s).1] := by
  simp [afterRoot, Proc.ret, createProjectFolder, Proc.sys, Proc.println]

theorem afterRoot_cwd {F : Type} (sys : Sys F) (project : Project) (s : Proc F) :
    (afterRoot sys project s).2.cwd = s.cwd := rfl

theorem afterChdir_trace {F : Type} (sys : Sys F) (project : Project) (s : Proc F) :
    (afterChdir sys project s).2.trace = (afterRoot sys project s).2.trace ++
      [Event.Sys s.cwd (.Chdir project.Name) (afterChdir sys project s).1] := rfl

theorem afterChdir_cwd {F : Type} (sys : Sys F) (project : Project) (s : Proc F) :
    (afterChdir sys project s).2.cwd
      = match (afterChdir sys project s).1 with
        | none => absPath s.cwd project.Name
        | some _ => s.cwd := by
  have hcwd : (afterChdir sys project s).2.cwd
      = match (SysCall.Chdir project.Name), (afterChdir sys project s).1 with
        | .Chdir p, none => absPath s.cwd p
        | _, _ => s.cwd := rfl
  rw [hcwd]
  cases (afterChdir sys project s).1 <;> rfl

/-- C5: `create` runs the phases in the order root folder, subfolders, files,
template copy, scripts, each at most once (the phase returns in its trace are
an initial segment of that list); it is fail-fast without rollback: when a
phase returns an error, `create` returns exactly that error and the only event
after that phase return is the deferred `os.Chdir` back (none at all when the
root folder phase failed), so no later phase runs and nothing is undone; and
`create` returns `nil` exactly when all five phases returned `nil`. -/
theorem create_fail_fast {F : Type} (sys : Sys F) (project : Project) (s : Proc F) :
    ∃ T, (create sys project s).2.trace = s.trace ++ T ∧
      (phaseReturns T).map Prod.fst <+: allPhases ∧
      (∀ ph e, (ph, some e) ∈ phaseReturns T →
        (create sys project s).1 = some e ∧
        ∃ pre post, T = pre ++ Event.Ret ph (some e) :: post ∧
          (post = [] ∨ ∃ c r, post = [Event.Sys c (.Chdir project.Data.Owd) r])) ∧
      ((create sys project s).1 = none ↔
        phaseReturns T = allPhases.map (fun ph => (ph, none))) := by
  have hR := afterRoot_trace sys project s
  have hC := afterChdir_trace sys project s
  rcases create_cases sys project s with ⟨err, h1, heq⟩ | ⟨h1, err, h2, heq⟩ | ⟨h1, h2, heq⟩
  · rw [heq]
    refine ⟨_, hR, ?_, ?_, ?_⟩
    · simp [phaseReturns, allPhases]
    · intro ph e hmem
      simp only [phaseReturns, h1, List.mem_singleton, Prod.mk.injEq, Option.some.injEq] at hmem
      obtain ⟨rfl, rfl⟩ := hmem
      exact ⟨rfl, [Event.Print "> Creating project folder...",
        Event.Sys s.cwd (.Mkdir project.Name ModePerm) (some e)], [], by rw [h1]; rfl, Or.inl rfl⟩
    · simp [phaseReturns, allPhases, h1]
  · rw [heq]
    refine ⟨_, by rw [hC, hR, List.append_assoc], ?_, ?_, ?_⟩
    · simp [phaseReturns, allPhases]
    · intro ph e hmem
      simp [phaseReturns, h1] at hmem
    · simp [phaseReturns, allPhases, h1]
  · rw [heq]
    obtain ⟨_, T, hT, _, hord, hfail, hnil, herr⟩ :=
      seqPhases_spec (bodyPhases sys project) (bodyPhases_quiet sys project)
        (afterChdir sys project s).2
    rw [← createBody_eq_seqPhases] at hT hfail hnil herr
    have htrace : ((afterBody sys project s).2.sys sys (.Chdir project.Data.Owd)).2.trace
        = s.trace ++ ([Event.Print "> Creating project folder...",
            Event.Sys s.cwd (.Mkdir project.Name ModePerm) none,
            Event.Ret .createProjectFolder none,
            Event.Sys s.cwd (.Chdir project.Name) none] ++ T ++
            [Event.Sys (afterBody sys project s).2.cwd (.Chdir project.Data.Owd)
              ((afterBody sys project s).2.sys sys (.Chdir project.Data.Owd)).1]) := by
      rw [sys_trace]
      unfold afterBody
      rw [hT, hC, hR, h1, h2]
      simp
    have hret : ∀ (c : String) (r : Option Err), phaseReturns
        ([Event.Print "> Creating project folder...",
            Event.Sys s.cwd (.Mkdir project.Name ModePerm) none,
            Event.Ret .createProjectFolder none,
            Event.Sys s.cwd (.Chdir project.Name) none] ++ T ++
            [Event.Sys c (.Chdir project.Data.Owd) r])
        = (Phase.createProjectFolder, none) :: phaseReturns T := by
      intro c r
      rw [phaseReturns_append, phaseReturns_append]
      simp [phaseReturns]
    refine ⟨_, htrace, ?_, ?_, ?_⟩
    · rw [hret]
      exact (List.prefix_cons_inj _).mpr hord
    · intro ph e hmem
      rw [hret] at hmem
      simp only [List.mem_cons, Prod.mk.injEq, reduceCtorEq, and_false, false_or] at hmem
      obtain ⟨hres, pre, hpre⟩ := hfail ph e hmem
      refine ⟨hres, [Event.Print "> Creating project folder...",
            Event.Sys s.cwd (.Mkdir project.Name ModePerm) none,
            Event.Ret .createProjectFolder none,
            Event.Sys s.cwd (.Chdir project.Name) none] ++ pre,
        [Event.Sys (afterBody sys project s).2.cwd (.Chdir project.Data.Owd)
              ((afterBody sys project s).2.sys sys (.Chdir project.Data.Owd)).1],
        ?_, Or.inr ⟨_, _, rfl⟩⟩
      rw [hpre]; simp
    · rw [hret]
      constructor
      · intro h
        have hb : (createBody sys project (afterChdir sys project s).2).1 = none := h
        rw [hnil hb]; rfl
      · intro h
        show (createBody sys project (afterChdir sys project s).2).1 = none
        cases hb : (createBody sys project (afterChdir sys project s).2).1 with
        | none => rfl
        | some e =>
          obtain ⟨ph, hmem⟩ := herr e hb
          have hT' : phaseReturns T = (bodyPhases sys project).map (fun x => (x.1, none)) := by
            simpa [allPhases, bodyPhases] using h
          rw [hT'] at hmem
          simp [bodyPhases] at hmem

theorem absPath_of_abs (cwd p : String) (h : ∃ rest, p.data = '/' :: rest) :
    absPath cwd p = p := by
  obtain ⟨rest, hrest⟩ := h
  simp [absPath, hrest]

/-- C9 (as amended): called with the current directory equal to `Owd` (an
absolute path), `create` ends in one of three ways.  If root-folder creation
fails, or if changing into the project root fails, the current directory is
still `Owd`.  Otherwise the four remaining phases (failed or not) issue every
one of their calls from the project root `Owd/Name`, the deferred
`os.Chdir(Owd)` is the last event, and the current directory is `Owd` again
when that call succeeds; its error is discarded, and when it fails the current
directory stays the project root. -/
theorem create_restores_cwd {F : Type} (sys : Sys F) (project : Project) (s : Proc F)
    (hcwd : s.cwd = project.Data.Owd) (habs : ∃ rest, project.Data.Owd.data = '/' :: rest) :
    ∃ T, (create sys project s).2.trace = s.trace ++ T ∧
      ((∃ e pre, T = pre ++ [Event.Ret .createProjectFolder (some e)] ∧
          (create sys project s).1 = some e ∧
          (create sys project s).2.cwd = project.Data.Owd) ∨
       (∃ e pre, T = pre ++ [Event.Sys project.Data.Owd (.Chdir project.Name) (some e)] ∧
          (create sys project s).1 = some e ∧
          (create sys project s).2.cwd = project.Data.Owd) ∨
       (∃ pre body r,
          T = pre ++ Event.Sys project.Data.Owd (.Chdir project.Name) none :: body ++
            [Event.Sys (absPath project.Data.Owd project.Name) (.Chdir project.Data.Owd) r] ∧
          phaseReturns pre = [(.createProjectFolder, none)] ∧
          (∀ c call res, Event.Sys c call res ∈ body →
            c = absPath project.Data.Owd project.Name) ∧
          (r = none → (create sys project s).2.cwd = project.Data.Owd) ∧
          (∀ e, r = some e →
            (create sys project s).2.cwd = absPath project.Data.Owd project.Name))) := by
  have hR := afterRoot_trace sys project s
  have hC := afterChdir_trace sys project s
  have hCc := afterChdir_cwd sys project s
  rcases create_cases sys project s with ⟨err, h1, heq⟩ | ⟨h1, err, h2, heq⟩ | ⟨h1, h2, heq⟩
  · rw [heq]
    refine ⟨_, hR, Or.inl ⟨err, [Event.Print "> Creating project folder...",
        Event.Sys s.cwd (.Mkdir project.Name ModePerm) (some err)], ?_, rfl, ?_⟩⟩
    · rw [h1]; rfl
    · rw [afterRoot_cwd, hcwd]
  · rw [heq]
    refine ⟨_, by rw [hC, hR, List.append_assoc], Or.inr (Or.inl ⟨err,
      [Event.Print "> Creating project folder...",
        Event.Sys s.cwd (.Mkdir project.Name ModePerm) none,
        Event.Ret .createProjectFolder none], ?_, rfl, ?_⟩)⟩
    · rw [h1, h2, hcwd]
    · rw [hCc, h2]; exact hcwd
  · rw [heq]
    rw [h2] at hCc
    simp only at hCc
    rw [hcwd] at hCc
    obtain ⟨hbc, T, hT, hsys, _, _, _, _⟩ :=
      seqPhases_spec (bodyPhases sys project) (bodyPhases_quiet sys project)
        (afterChdir sys project s).2
    rw [← createBody_eq_seqPhases] at hT hbc
    have hbc' : (afterBody sys project s).2.cwd = absPath project.Data.Owd project.Name := by
      unfold afterBody; rw [hbc, hCc]
    have htrace : ((afterBody sys project s).2.sys sys (.Chdir project.Data.Owd)).2.trace
        = s.trace ++ ([Event.Print "> Creating project folder...",
            Event.Sys project.Data.Owd (.Mkdir project.Name ModePerm) none,
            Event.Ret .createProjectFolder none] ++
            Event.Sys project.Data.Owd (.Chdir project.Name) none :: T ++
            [Event.Sys (absPath project.Data.Owd project.Name) (.Chdir project.Data.Owd)
              ((afterBody sys project s).2.sys sys (.Chdir project.Data.Owd)).1]) := by
      rw [sys_trace, hbc']
      unfold afterBody
      rw [hT, hC, hR, h1, h2, hcwd]
      simp
    refine ⟨_, htrace, Or.inr (Or.inr ⟨_, T, _, rfl, by simp [phaseReturns], ?_, ?_, ?_⟩)⟩
    · intro c call res hmem
      rw [hsys c call res hmem, hCc]
    · intro hr
      have hfin : ((afterBody sys project s).2.sys sys (.Chdir project.Data.Owd)).2.cwd
          = match (SysCall.Chdir project.Data.Owd),
              ((afterBody sys project s).2.sys sys (.Chdir project.Data.Owd)).1 with
            | .Chdir p, none => absPath (afterBody sys project s).2.cwd p
            | _, _ => (afterBody sys project s).2.cwd := rfl
      show ((afterBody sys project s).2.sys sys (.Chdir project.Data.Owd)).2.cwd = _
      rw [hfin, hr]
      exact absPath_of_abs _ _ habs
    · intro e hr
      have hfin : ((afterBody sys project s).2.sys sys (.Chdir project.Data.Owd)).2.cwd
          = match (SysCall.Chdir project.Data.Owd),
              ((afterBody sys project s).2.sys sys (.Chdir project.Data.Owd)).1 with
            | .Chdir p, none => absPath (afterBody sys project s).2.cwd p
            | _, _ => (afterBody sys project s).2.cwd := rfl
      show ((afterBody sys project s).2.sys sys (.Chdir project.Data.Owd)).2.cwd = _
      rw [hfin, hr]
      exact hbc'

/-- The amended C9 at a concrete input: project `demo` of the example class,
created from `/home/u`. -/
theorem create_restores_cwd_witness :
    exampleProc.cwd = exampleProject.Data.Owd ∧
    ∃ T, (create (posix copyFile runOk) exampleProject exampleProc).2.trace
        = exampleProc.trace ++ T ∧
      ((∃ e pre, T = pre ++ [Event.Ret .createProjectFolder (some e)] ∧
          (create (posix copyFile runOk) exampleProject exampleProc).1 = some e ∧
          (create (posix copyFile runOk) exampleProject exampleProc).2.cwd
            = exampleProject.Data.Owd) ∨
       (∃ e pre, T = pre ++
            [Event.Sys exampleProject.Data.Owd (.Chdir exampleProject.Name) (some e)] ∧
          (create (posix copyFile runOk) exampleProject exampleProc).1 = some e ∧
          (create (posix copyFile runOk) exampleProject exampleProc).2.cwd
            = exampleProject.Data.Owd) ∨
       (∃ pre body r,
          T = pre ++ Event.Sys exampleProject.Data.Owd (.Chdir exampleProject.Name) none ::
            body ++ [Event.Sys (absPath exampleProject.Data.Owd exampleProject.Name)
              (.Chdir exampleProject.Data.Owd) r] ∧
          phaseReturns pre = [(.createProjectFolder, none)] ∧
          (∀ c call res, Event.Sys c call res ∈ body →
            c = absPath exampleProject.Data.Owd exampleProject.Name) ∧
          (r = none → (create (posix copyFile runOk) exampleProject exampleProc).2.cwd
            = exampleProject.Data.Owd) ∧
          (∀ e, r = some e →
            (create (posix copyFile runOk) exampleProject exampleProc).2.cwd
              = absPath exampleProject.Data.Owd exampleProject.Name))) :=
  ⟨by decide, create_restores_cwd (posix copyFile runOk) exampleProject exampleProc
    (by decide) ⟨"home/u".data, by decide⟩⟩

/-- C9, as stated, fails on one exit path: when a script of the class removes
the original working directory `/home/u`, every phase succeeds, the deferred
`os.Chdir("/home/u")` fails, its error is discarded, and `create` returns `nil`
with the current directory still the project root `/home/u/demo`. -/
theorem create_cwd_not_restored :
    exampleProc.cwd = exampleProject.Data.Owd ∧
    (create (posix copyFile runRemoveTree) exampleProject exampleProc).1 = none ∧
    (create (posix copyFile runRemoveTree) exampleProject exampleProc).2.cwd = "/home/u/demo" ∧
    (create (posix copyFile runRemoveTree) exampleProject exampleProc).2.cwd
      ≠ exampleProject.Data.Owd ∧
    (create (posix copyFile runRemoveTree) exampleProject exampleProc).2.trace.getLast?
      = some (Event.Sys "/home/u/demo" (.Chdir "/home/u") (some "no such file or directory")) := by
  decide

/-! ### File creation (C6) -/

theorem lookup_filter_ne (files : List (Path × String)) (p q : Path) (h : q ≠ p) :
    (files.filter (fun e => e.1 != p)).lookup q = files.lookup q := by
  induction files with
  | nil => rfl
  | cons e files ih =>
    obtain ⟨k, v⟩ := e
    by_cases hk : k = p
    · subst hk
      have hqk : (q == k) = false := by simpa using h
      simp [List.filter_cons, List.lookup_cons, hqk, ih]
    · have hkp : (k != p) = true := by simpa using hk
      simp only [List.filter_cons, hkp, if_true, List.lookup_cons, ih]

theorem read_write (fs : FS) (p q : Path) (content : String) :
    (fs.write p content).read q = if q = p then some content else fs.read q := by
  unfold FS.read FS.write
  by_cases h : q = p
  · subst h; simp [List.lookup_cons]
  · have hq : (q == p) = false := by simpa using h
    simp only [List.lookup_cons, hq, h, if_false]
    exact lookup_filter_ne fs.files p q h

/-- A successful `os.OpenFile(path, os.O_RDONLY|os.O_CREATE, perm)` leaves the
content of every regular file as it was and, when there was no file at the
path, leaves an empty one there. -/
theorem openFile_create_spec (fs : FS) (p : Path)
    (hok : (fs.openFile p [.O_RDONLY, .O_CREATE]).1 = none) :
    (∀ q content, fs.read q = some content →
      ((fs.openFile p [.O_RDONLY, .O_CREATE]).2).read q = some content) ∧
    (fs.read p = none → ((fs.openFile p [.O_RDONLY, .O_CREATE]).2).read p = some "") := by
  unfold FS.openFile at hok ⊢
  by_cases hd : p ∈ fs.dirs
  · simp [hd] at hok
  · simp only [hd, if_false] at hok ⊢
    cases hr : fs.read p with
    | some c =>
      simp only [hr] at hok ⊢
      have h1 : ¬ (OpenFlag.O_CREATE ∈ [OpenFlag.O_RDONLY, OpenFlag.O_CREATE] ∧
          OpenFlag.O_EXCL ∈ [OpenFlag.O_RDONLY, OpenFlag.O_CREATE]) := by decide
      have h2 : ¬ (OpenFlag.O_TRUNC ∈ [OpenFlag.O_RDONLY, OpenFlag.O_CREATE] ∧
          (OpenFlag.O_WRONLY ∈ [OpenFlag.O_RDONLY, OpenFlag.O_CREATE] ∨
            OpenFlag.O_RDWR ∈ [OpenFlag.O_RDONLY, OpenFlag.O_CREATE])) := by decide
      rw [if_neg h1, if_neg h2]
      exact ⟨fun q content h => h, fun h => by simp at h⟩
    | none =>
      simp only [hr] at hok ⊢
      have h1 : OpenFlag.O_CREATE ∈ [OpenFlag.O_RDONLY, OpenFlag.O_CREATE] := by decide
      rw [if_pos h1] at hok ⊢
      by_cases hp : p.dropLast ∈ fs.dirs
      · rw [if_pos hp]
        refine ⟨fun q content h => ?_, fun _ => ?_⟩
        · rw [read_write]
          by_cases hq : q = p
          · subst hq; rw [hr] at h; simp at h
          · simp [hq, h]
        · rw [read_write]; simp
      · rw [if_neg hp] at hok; simp at hok

/-- The file loop of `createFiles` on the POSIX-like file system: when it
returns no error, every regular file has kept its content and every target
that was not there is an empty file. -/
theorem createFilesLoop_spec (copy : Path → Path → FS → Option Err × FS)
    (run : String → Cmd → FS → Option Err × FS) (project : Project)
    (rows : List String) (s : Proc FS)
    (hok : (createFilesLoop (posix copy run) project rows s).1 = none) :
    (createFilesLoop (posix copy run) project rows s).2.cwd = s.cwd ∧
    (∀ q content, s.world.read q = some content →
      (createFilesLoop (posix copy run) project rows s).2.world.read q = some content) ∧
    (∀ target ∈ rows, s.world.read (fileTarget project s.cwd target) = none →
      (createFilesLoop (posix copy run) project rows s).2.world.read
        (fileTarget project s.cwd target) = some "") := by
  induction rows generalizing s with
  | nil => exact ⟨rfl, fun _ _ h => h, fun _ h => by simp at h⟩
  | cons row rows ih =>
    rw [createFilesLoop_eq] at hok ⊢
    rcases forEachCall_cons (posix copy run) (fun t => SysCall.OpenFile
        (ReplaceAllString (posix copy run).isLetter (posix copy run).isDigit PROJECT_NAME t
          project.Name) [.O_RDONLY, .O_CREATE] ModePerm) row rows s
      with ⟨err, _, heq⟩ | ⟨hnone, heq⟩
    · rw [heq] at hok; simp at hok
    · rw [heq] at hok ⊢
      rw [← createFilesLoop_eq] at hok ⊢
      have hopen : (s.world.openFile (fileTarget project s.cwd row) [.O_RDONLY, .O_CREATE]).1
          = none := hnone
      obtain ⟨hkeep, hnew⟩ := openFile_create_spec s.world _ hopen
      obtain ⟨hc, hk, hn⟩ := ih _ hok
      have hc1 : (s.sys (posix copy run) (SysCall.OpenFile
          (ReplaceAllString (posix copy run).isLetter (posix copy run).isDigit PROJECT_NAME row
            project.Name) [.O_RDONLY, .O_CREATE] ModePerm)).2.cwd = s.cwd := rfl
      have hw1 : (s.sys (posix copy run) (SysCall.OpenFile
          (ReplaceAllString (posix copy run).isLetter (posix copy run).isDigit PROJECT_NAME row
            project.Name) [.O_RDONLY, .O_CREATE] ModePerm)).2.world
          = (s.world.openFile (fileTarget project s.cwd row) [.O_RDONLY, .O_CREATE]).2 := rfl
      rw [hc1] at hc hn
      rw [hw1] at hk hn
      refine ⟨hc, fun q content h => hk q content (hkeep q content h), ?_⟩
      intro target hmem hnone'
      rcases List.mem_cons.mp hmem with rfl | hmem
      · exact hk _ _ (hnew hnone')
      · cases hr : ((s.world.openFile (fileTarget project s.cwd row)
            [.O_RDONLY, .O_CREATE]).2).read (fileTarget project s.cwd target) with
        | none => exact hn target hmem hr
        | some c =>
          have hc' : c = "" := by
            by_cases hpt : fileTarget project s.cwd target = fileTarget project s.cwd row
            · rw [hpt] at hr hnone'
              rw [hnew hnone'] at hr
              exact (Option.some.inj hr).symm
            · exfalso
              unfold FS.openFile at hr hopen
              by_cases hd : fileTarget project s.cwd row ∈ s.world.dirs
              · simp [hd] at hopen
              · simp only [hd, if_false] at hr hopen
                cases hrow : s.world.read (fileTarget project s.cwd row) with
                | some c0 =>
                  simp only [hrow] at hr
                  split at hr
                  · simp [hnone'] at hr
                  · split at hr
                    · simp only at hr; rw [read_write] at hr; simp [hpt, hnone'] at hr
                    · simp [hnone'] at hr
                | none =>
                  simp only [hrow] at hr
                  split at hr
                  · split at hr
                    · simp only at hr; rw [read_write] at hr; simp [hpt, hnone'] at hr
                    · simp [hnone'] at hr
                  · simp [hnone'] at hr
          subst hc'
          exact hk _ _ hr

/-- C6 (as amended): on the POSIX-like file system, when `createFiles` returns
no error, every regular file that existed at the substituted target path of a
selected Files entry still exists with its previous content (the file is
opened with `O_RDONLY|O_CREATE`, nothing is truncated), and every target at
which there was no file is an empty regular file. -/
theorem createFiles_keeps_existing_content (copy : Path → Path → FS → Option Err × FS)
    (run : String → Cmd → FS → Option Err × FS) (project : Project) (s : Proc FS)
    (hok : (createFiles (posix copy run) project s).1 = none) :
    ∀ target ∈ selectPlain project.Data.db.class_file project.Data.projectID,
      (∀ content, s.world.read (fileTarget project s.cwd target) = some content →
        (createFiles (posix copy run) project s).2.world.read
          (fileTarget project s.cwd target) = some content) ∧
      (s.world.read (fileTarget project s.cwd target) = none →
        (createFiles (posix copy run) project s).2.world.read
          (fileTarget project s.cwd target) = some "") := by
  unfold createFiles at hok ⊢
  cases hq : project.Data.db.query sqlFiles
      (selectPlain project.Data.db.class_file project.Data.projectID) with
  | error err => rw [hq] at hok; simp at hok
  | ok files =>
    have hfiles : files = selectPlain project.Data.db.class_file project.Data.projectID := by
      unfold DB.query at hq
      split at hq
      · simp at hq
      · exact (Except.ok.inj hq).symm
    rw [hq] at hok
    simp only at hok ⊢
    obtain ⟨_, hk, hn⟩ := createFilesLoop_spec copy run project files s hok
    intro target hmem
    rw [← hfiles] at hmem
    exact ⟨fun content h => hk _ _ h, hn target hmem⟩

/-- The amended C6 at a concrete input: `createFiles` for the class file
`../keep.txt`, run inside the project root `/home/u/demo`. -/
theorem createFiles_keeps_existing_content_witness :
    (createFiles (posix copyFile runOk) keepProject inProjectRoot).1 = none ∧
    ∀ target ∈ selectPlain keepProject.Data.db.class_file keepProject.Data.projectID,
      (∀ content,
        inProjectRoot.world.read (fileTarget keepProject inProjectRoot.cwd target)
          = some content →
        (createFiles (posix copyFile runOk) keepProject inProjectRoot).2.world.read
          (fileTarget keepProject inProjectRoot.cwd target) = some content) ∧
      (inProjectRoot.world.read (fileTarget keepProject inProjectRoot.cwd target) = none →
        (createFiles (posix copyFile runOk) keepProject inProjectRoot).2.world.read
          (fileTarget keepProject inProjectRoot.cwd target) = some "") :=
  ⟨by decide, createFiles_keeps_existing_content copyFile runOk keepProject inProjectRoot
    (by decide)⟩

/-- C6, as stated, fails: the regular file `/home/u/keep.txt` with content
`hello` is at the target path of the Files entry `../keep.txt`; `createFiles`
succeeds and the file still holds `hello`, it is not truncated. -/
theorem createFiles_does_not_truncate :
    selectPlain keepProject.Data.db.class_file keepProject.Data.projectID = ["../keep.txt"] ∧
    fileTarget keepProject inProjectRoot.cwd "../keep.txt" = ["home", "u", "keep.txt"] ∧
    inProjectRoot.world.read ["home", "u", "keep.txt"] = some "hello" ∧
    (createFiles (posix copyFile runOk) keepProject inProjectRoot).1 = none ∧
    (createFiles (posix copyFile runOk) keepProject inProjectRoot).2.world.read
      ["home", "u", "keep.txt"] = some "hello" := by
  decide

/-! ## The command handlers -/

namespace Commands

theorem log_trace {σ F T : Type} (w : World σ F T) (e : Event) :
    (w.log e).trace = w.trace ++ [e] := rfl

theorem removeClassCalls_append (t u : List Event) :
    removeClassCalls (t ++ u) = removeClassCalls t ++ removeClassCalls u := by
  induction t with
  | nil => rfl
  | cons e t ih => cases e <;> simpa [removeClassCalls] using ih

theorem removeProjectCalls_append (t u : List Event) :
    removeProjectCalls (t ++ u) = removeProjectCalls t ++ removeProjectCalls u := by
  induction t with
  | nil => rfl
  | cons e t ih => cases e <;> simpa [removeProjectCalls] using ih

theorem saveClassCalls_append (t u : List Event) :
    saveClassCalls (t ++ u) = saveClassCalls t ++ saveClassCalls u := by
  induction t with
  | nil => rfl
  | cons e t ih => cases e <;> simpa [saveClassCalls] using ih

theorem createCalls_append (t u : List Event) :
    createCalls (t ++ u) = createCalls t ++ createCalls u := by
  induction t with
  | nil => rfl
  | cons e t ih => cases e <;> simpa [createCalls] using ih

/-! ### Saving before creating (C3) -/

/-- C3: `createProject` first calls `SaveProject` on the new project.  If that
fails, `createProject` returns that error, `Project.Create` is not invoked and
the file system is unchanged; `Project.Create` is invoked only after
`SaveProject` returned no error, and then exactly once, its result being the
result of `createProject`. -/
theorem createProject_saves_first {σ F T : Type} (env : Env σ F T)
    (name cwd configPath : String) (cls : Class) (w : World σ F T) :
    (∀ e, (env.SaveProject (env.NewProject name (env.Join cwd name) cls) w.store).1 = some e →
      (createProject env name cwd configPath cls w).1 = some e ∧
      (createProject env name cwd configPath cls w).2.trace
        = w.trace ++ [.SaveProject (env.NewProject name (env.Join cwd name) cls) (some e)] ∧
      createCalls (createProject env name cwd configPath cls w).2.trace = createCalls w.trace ∧
      (createProject env name cwd configPath cls w).2.fs = w.fs) ∧
    ((env.SaveProject (env.NewProject name (env.Join cwd name) cls) w.store).1 = none →
      ∃ project r,
        (createProject env name cwd configPath cls w).2.trace
          = w.trace ++ [.SaveProject (env.NewProject name (env.Join cwd name) cls) none,
              .Create project cwd configPath r] ∧
        (createProject env name cwd configPath cls w).1 = r) := by
  unfold createProject
  simp only
  split
  · next err p store h =>
    rw [h]
    refine ⟨fun e he => ?_, fun he => by simp at he⟩
    simp only [Option.some.injEq] at he
    subst he
    refine ⟨rfl, rfl, ?_, rfl⟩
    simp [log_trace, createCalls_append, createCalls]
  · next p store h =>
    rw [h]
    refine ⟨fun e he => by simp at he, fun _ => ?_⟩
    split
    · next err fs hc => exact ⟨p, some err, by simp [log_trace], rfl⟩
    · next fs hc => exact ⟨p, none, by simp [log_trace], rfl⟩

/-! ### The reserved class (C4) -/

/-- The loop of `removeAllClasses` calls `RemoveClass` for the loaded classes
other than class 1, in order, up to and including the first call that fails,
whose error it returns. -/
theorem removeAllClassesLoop_calls {σ F T : Type} (env : Env σ F T) (classes : List Class)
    (w : World σ F T) :
    ∃ done,
      ((removeAllClassesLoop env classes w).1 = none ∧ done = removableIDs classes ∧
        removeClassCalls (removeAllClassesLoop env classes w).2.trace
          = removeClassCalls w.trace ++ done.map (fun id => (id, none))) ∨
      (∃ id e, (removeAllClassesLoop env classes w).1 = some e ∧
        done ++ [id] <+: removableIDs classes ∧
        removeClassCalls (removeAllClassesLoop env classes w).2.trace
          = removeClassCalls w.trace ++ done.map (fun id => (id, none)) ++ [(id, some e)]) := by
  induction classes generalizing w with
  | nil => exact ⟨[], Or.inl ⟨rfl, rfl, by simp [removeAllClassesLoop]⟩⟩
  | cons cls classes ih =>
    by_cases h1 : cls.ID = 1
    · have hids : removableIDs (cls :: classes) = removableIDs classes := by
        simp [removableIDs, List.filter_cons, h1]
      have hstep : removeAllClassesLoop env (cls :: classes) w
          = removeAllClassesLoop env classes w := by
        simp [removeAllClassesLoop, h1]
      rw [hstep, hids]
      exact ih w
    · have hids : removableIDs (cls :: classes) = cls.ID :: removableIDs classes := by
        simp [removableIDs, List.filter_cons, h1]
      rw [hids]
      cases hr : (env.RemoveClass cls.ID w.store).1 with
      | some err =>
        have hstep : removeAllClassesLoop env (cls :: classes) w
            = (some err, { w with store := (env.RemoveClass cls.ID w.store).2 }.log
                (.RemoveClass cls.ID (some err))) := by
          simp only [removeAllClassesLoop, h1, if_false]
          split
          · next e store h => rw [h] at hr; simp at hr; subst hr; simp [h]
          · next store h => rw [h] at hr; simp at hr
        rw [hstep]
        refine ⟨[], Or.inr ⟨cls.ID, err, rfl, ?_, ?_⟩⟩
        · simp
        · simp [log_trace, removeClassCalls_append, removeClassCalls]
      | none =>
        have hstep : removeAllClassesLoop env (cls :: classes) w
            = removeAllClassesLoop env classes
                ({ w with store := (env.RemoveClass cls.ID w.store).2 }.log
                  (.RemoveClass cls.ID none)) := by
          simp only [removeAllClassesLoop, h1, if_false]
          split
          · next e store h => rw [h] at hr; simp at hr
          · next store h => simp [h]
        rw [hstep]
        obtain ⟨done, hdone⟩ := ih ({ w with store := (env.RemoveClass cls.ID w.store).2 }.log
          (.RemoveClass cls.ID none))
        refine ⟨cls.ID :: done, ?_⟩
        rcases hdone with ⟨hres, hd, htr⟩ | ⟨id, e, hres, hpre, htr⟩
        · left
          refine ⟨hres, by rw [hd], ?_⟩
          rw [htr]
          simp [log_trace, removeClassCalls_append, removeClassCalls]
        · right
          refine ⟨id, e, hres, ?_, ?_⟩
          · simpa using (List.prefix_cons_inj cls.ID).mpr hpre
          · rw [htr]
            simp [log_trace, removeClassCalls_append, removeClassCalls]

theorem one_not_mem_removableIDs (classes : List Class) : 1 ∉ removableIDs classes := by
  simp [removableIDs]

/-- C4: the class-rm command never removes the reserved class.  For a label
that resolves to class ID 1, `removeClass` returns an error, makes no
`RemoveClass` call and leaves the repository as it was; for any label it makes
no `RemoveClass` call with ID 1.  `removeAllClasses` makes no `RemoveClass`
call with ID 1 and calls `RemoveClass` for the other loaded classes in order,
for all of them when it returns no error, and otherwise up to and including
the first failing removal, whose error it returns. -/
theorem reserved_class_is_not_removed {σ F T : Type} (env : Env σ F T) (w : World σ F T) :
    (∀ label, env.LoadClassIDByLabel label w.store = .ok 1 →
      (removeClass env label w).1 = some "Class 1 can not be removed" ∧
      removeClassCalls (removeClass env label w).2.trace = removeClassCalls w.trace ∧
      (removeClass env label w).2.store = w.store) ∧
    (∀ label, ∃ calls,
      removeClassCalls (removeClass env label w).2.trace = removeClassCalls w.trace ++ calls ∧
      ∀ c ∈ calls, c.1 ≠ 1) ∧
    (∃ calls,
      removeClassCalls (removeAllClasses env w).2.trace = removeClassCalls w.trace ++ calls ∧
      (∀ c ∈ calls, c.1 ≠ 1) ∧
      ∀ classes, env.LoadAllClasses w.store = .ok classes →
        ∃ done,
          ((removeAllClasses env w).1 = none ∧ done = removableIDs classes ∧
            calls = done.map (fun id => (id, none))) ∨
          (∃ id e, (removeAllClasses env w).1 = some e ∧
            done ++ [id] <+: removableIDs classes ∧
            calls = done.map (fun id => (id, none)) ++ [(id, some e)])) := by
  refine ⟨?_, ?_, ?_⟩
  · intro label hl
    simp [removeClass, hl, log_trace, removeClassCalls_append, removeClassCalls, World.log]
  · intro label
    unfold removeClass
    cases hl : env.LoadClassIDByLabel label w.store with
    | error err =>
      exact ⟨[], by simp [log_trace, removeClassCalls_append, removeClassCalls], by simp⟩
    | ok classID =>
      by_cases h1 : classID = 1
      · exact ⟨[], by simp [h1, log_trace, removeClassCalls_append, removeClassCalls], by simp⟩
      · refine ⟨[(classID, (env.RemoveClass classID w.store).1)], ?_, by simpa using h1⟩
        simp [h1, log_trace, removeClassCalls_append, removeClassCalls, World.log]
  · unfold removeAllClasses
    cases hl : env.LoadAllClasses w.store with
    | error err =>
      refine ⟨[], by simp [log_trace, removeClassCalls_append, removeClassCalls], by simp, ?_⟩
      intro classes hc
      simp at hc
    | ok classes =>
      simp only
      obtain ⟨done, hdone⟩ := removeAllClassesLoop_calls env classes
        (w.log (.LoadAllClasses (.ok classes)))
      have hbase : removeClassCalls (w.log (.LoadAllClasses (.ok classes))).trace
          = removeClassCalls w.trace := by
        simp [log_trace, removeClassCalls_append, removeClassCalls]
      rw [hbase] at hdone
      rcases hdone with ⟨hres, hd, htr⟩ | ⟨id, e, hres, hpre, htr⟩
      · refine ⟨done.map (fun id => (id, none)), htr, ?_, ?_⟩
        · intro c hc
          obtain ⟨id, hid, rfl⟩ := List.mem_map.mp hc
          rw [hd] at hid
          exact fun h => one_not_mem_removableIDs classes (h ▸ hid)
        · intro classes' hc
          have : classes' = classes := by simpa using hc.symm
          subst this
          exact ⟨done, Or.inl ⟨hres, hd, rfl⟩⟩
      · refine ⟨done.map (fun id => (id, none)) ++ [(id, some e)],
          by rw [htr, List.append_assoc], ?_, ?_⟩
        · intro c hc
          have hsub : c.1 ∈ removableIDs classes := by
            apply hpre.subset
            rcases List.mem_append.mp hc with hc | hc
            · obtain ⟨id', hid, rfl⟩ := List.mem_map.mp hc
              exact List.mem_append_left _ hid
            · simp only [List.mem_singleton] at hc
              subst hc
              simp
          exact fun h => one_not_mem_removableIDs classes (h ▸ hsub)
        · intro classes' hc
          have : classes' = classes := by simpa using hc.symm
          subst this
          exact ⟨done, Or.inr ⟨id, e, hres, hpre, rfl⟩⟩

/-! ### Importing a class from a config file (C10) -/

/-- C10: if `ImportFromConfig` returns an error, `importClassFromConfig`
returns that error, makes no `SaveClass` call and leaves the repository as it
was; if the import succeeds, `SaveClass` is called exactly once, with the
imported class, and its result is the result of `importClassFromConfig`. -/
theorem importClassFromConfig_saves_only_imported {σ F T : Type} (env : Env σ F T)
    (config : String) (w : World σ F T) :
    (∀ e, (env.ImportFromConfig config (env.NewClass "" "" false) w.fs).1 = some e →
      (importClassFromConfig env config w).1 = some e ∧
      saveClassCalls (importClassFromConfig env config w).2.trace = saveClassCalls w.trace ∧
      (importClassFromConfig env config w).2.store = w.store) ∧
    ((env.ImportFromConfig config (env.NewClass "" "" false) w.fs).1 = none →
      saveClassCalls (importClassFromConfig env config w).2.trace
        = saveClassCalls w.trace ++
            [(env.ImportFromConfig config (env.NewClass "" "" false) w.fs).2] ∧
      (importClassFromConfig env config w).1
        = (env.SaveClass (env.ImportFromConfig config (env.NewClass "" "" false) w.fs).2
            w.store).1 ∧
      (importClassFromConfig env config w).2.store
        = (env.SaveClass (env.ImportFromConfig config (env.NewClass "" "" false) w.fs).2
            w.store).2) := by
  unfold importClassFromConfig
  simp only
  split
  · next err cls h =>
    rw [h]
    refine ⟨fun e he => ?_, fun he => by simp at he⟩
    simp only [Option.some.injEq] at he
    subst he
    exact ⟨rfl, by simp [log_trace, saveClassCalls_append, saveClassCalls], rfl⟩
  · next cls h =>
    rw [h]
    refine ⟨fun e he => by simp at he, fun _ => ⟨?_, rfl, rfl⟩⟩
    simp [log_trace, saveClassCalls_append, saveClassCalls, World.log]

/-! ### Removing projects (C8) -/

/-- The removal loop: a failed `RemoveProject` is followed only by the line
reporting it and its error is the result; without error every attempted
removal succeeded; the paths attempted are paths of the given projects, in
order, and with the force flag and no failure all of them. -/
theorem removeProjects_spec {σ F T : Type} (env : Env σ F T) (force : Bool)
    (projects : List Project) (w : World σ F T) :
    ∃ U, (removeProjects env force projects w).2.trace = w.trace ++ U ∧
      (∀ path e, (path, some e) ∈ removeProjectCalls U →
        (removeProjects env force projects w).1 = some e ∧
        ∃ pre, U = pre ++ [.RemoveProject path (some e), .Printf (removalFailedLine path e)]) ∧
      ((removeProjects env force projects w).1 = none →
        ∀ c ∈ removeProjectCalls U, c.2 = none) ∧
      List.Sublist ((removeProjectCalls U).map Prod.fst) (projects.map (·.Path)) ∧
      (force = true → (removeProjects env force projects w).1 = none →
        (removeProjectCalls U).map Prod.fst = projects.map (·.Path)) := by
  induction projects generalizing w with
  | nil =>
    exact ⟨[], by simp [removeProjects], by simp [removeProjectCalls],
      by simp [removeProjectCalls], by simp [removeProjectCalls],
      by simp [removeProjectCalls]⟩
  | cons project projects ih =>
    -- the world after the confirmation, and the events of the confirmation
    obtain ⟨w1, A, go, hA, hAcalls, hgo, hstep⟩ : ∃ (w1 : World σ F T) (A : List Event)
        (go : Bool), w1.trace = w.trace ++ A ∧ removeProjectCalls A = [] ∧
        (force = true → go = true) ∧
        removeProjects env force (project :: projects) w
          = if go then
              (match env.RemoveProject project.Path w1.store with
              | (some err, store) =>
                (some err, ({ w1 with store := store }.log
                  (.RemoveProject project.Path (some err))).log
                  (.Printf (removalFailedLine project.Path err)))
              | (none, store) =>
                removeProjects env force projects
                  (({ w1 with store := store }.log (.RemoveProject project.Path none)).log
                    (.Printf ("> Project '" ++ fmtBadVerbD project.Path ++
                      "' was successfully removed\n"))))
            else removeProjects env force projects w1 := by
      cases force with
      | true =>
        refine ⟨w, [], true, by simp, rfl, fun _ => rfl, ?_⟩
        simp [removeProjects]
      | false =>
        refine ⟨{ w with tty := (env.WantTo ("Do you really want to remove project '" ++
            project.Name ++ " (" ++ toString project.ID ++ ")'?") w.tty).2 }.log
            (.WantTo ("Do you really want to remove project '" ++
              project.Name ++ " (" ++ toString project.ID ++ ")'?")
              (env.WantTo ("Do you really want to remove project '" ++
              project.Name ++ " (" ++ toString project.ID ++ ")'?") w.tty).1),
          [.WantTo ("Do you really want to remove project '" ++
              project.Name ++ " (" ++ toString project.ID ++ ")'?")
              (env.WantTo ("Do you really want to remove project '" ++
              project.Name ++ " (" ++ toString project.ID ++ ")'?") w.tty).1],
          (env.WantTo ("Do you really want to remove project '" ++
              project.Name ++ " (" ++ toString project.ID ++ ")'?") w.tty).1,
          rfl, rfl, fun h => by simp at h, ?_⟩
        cases hans : (env.WantTo ("Do you really want to remove project '" ++
              project.Name ++ " (" ++ toString project.ID ++ ")'?") w.tty).1 <;>
          simp [removeProjects, hans]
    rw [hstep]
    cases go with
    | false =>
      simp only [Bool.false_eq_true, if_false]
      obtain ⟨U, hU, hfail, hnil, hsub, hall⟩ := ih w1
      refine ⟨A ++ U, by rw [hU, hA, List.append_assoc], ?_, ?_, ?_, ?_⟩
      · intro path e hmem
        rw [removeProjectCalls_append, hAcalls] at hmem
        obtain ⟨hres, pre, hpre⟩ := hfail path e hmem
        exact ⟨hres, A ++ pre, by rw [hpre, List.append_assoc]⟩
      · intro h c hc
        rw [removeProjectCalls_append, hAcalls] at hc
        exact hnil h c hc
      · rw [removeProjectCalls_append, hAcalls]
        exact List.Sublist.cons _ hsub
      · intro hf
        exact absurd (hgo hf) (by simp)
    | true =>
      simp only [if_true]
      cases hr : (env.RemoveProject project.Path w1.store).1 with
      | some err =>
        have hm : (match env.RemoveProject project.Path w1.store with
              | (some err, store) =>
                (some err, ({ w1 with store := store }.log
                  (.RemoveProject project.Path (some err))).log
                  (.Printf (removalFailedLine project.Path err)))
              | (none, store) =>
                removeProjects env force projects
                  (({ w1 with store := store }.log (.RemoveProject project.Path none)).log
                    (.Printf ("> Project '" ++ fmtBadVerbD project.Path ++
                      "' was successfully removed\n"))))
            = (some err, ({ w1 with store := (env.RemoveProject project.Path w1.store).2 }.log
                  (.RemoveProject project.Path (some err))).log
                  (.Printf (removalFailedLine project.Path err))) := by
          split
          · next e store h => rw [h] at hr; simp at hr; subst hr; simp [h]
          · next store h => rw [h] at hr; simp at hr
        rw [hm]
        refine ⟨A ++ [.RemoveProject project.Path (some err),
          .Printf (removalFailedLine project.Path err)], ?_, ?_, ?_, ?_, ?_⟩
        · simp [log_trace, hA]
        · intro path e hmem
          rw [removeProjectCalls_append, hAcalls] at hmem
          simp only [removeProjectCalls, List.nil_append, List.mem_singleton, Prod.mk.injEq,
            Option.some.injEq] at hmem
          obtain ⟨rfl, rfl⟩ := hmem
          exact ⟨rfl, A, rfl⟩
        · intro h; simp at h
        · rw [removeProjectCalls_append, hAcalls]
          simp [removeProjectCalls]
        · intro _ h; simp at h
      | none =>
        have hm : (match env.RemoveProject project.Path w1.store with
              | (some err, store) =>
                (some err, ({ w1 with store := store }.log
                  (.RemoveProject project.Path (some err))).log
                  (.Printf (removalFailedLine project.Path err)))
              | (none, store) =>
                removeProjects env force projects
                  (({ w1 with store := store }.log (.RemoveProject project.Path none)).log
                    (.Printf ("> Project '" ++ fmtBadVerbD project.Path ++
                      "' was successfully removed\n"))))
            = removeProjects env force projects
                  (({ w1 with store := (env.RemoveProject project.Path w1.store).2 }.log
                    (.RemoveProject project.Path none)).log
                    (.Printf ("> Project '" ++ fmtBadVerbD project.Path ++
                      "' was successfully removed\n"))) := by
          split
          · next e store h => rw [h] at hr; simp at hr
          · next store h => simp [h]
        rw [hm]
        obtain ⟨U, hU, hfail, hnil, hsub, hall⟩ := ih
          (({ w1 with store := (env.RemoveProject project.Path w1.store).2 }.log
            (.RemoveProject project.Path none)).log
            (.Printf ("> Project '" ++ fmtBadVerbD project.Path ++
              "' was successfully removed\n")))
        have hcalls : removeProjectCalls (A ++ [.RemoveProject project.Path none,
            .Printf ("> Project '" ++ fmtBadVerbD project.Path ++
              "' was successfully removed\n")] ++ U)
            = (project.Path, none) :: removeProjectCalls U := by
          rw [removeProjectCalls_append, removeProjectCalls_append, hAcalls]
          simp [removeProjectCalls]
        refine ⟨A ++ [.RemoveProject project.Path none,
            .Printf ("> Project '" ++ fmtBadVerbD project.Path ++
              "' was successfully removed\n")] ++ U, ?_, ?_, ?_, ?_, ?_⟩
        · rw [hU]; simp [log_trace, hA]
        · intro path e hmem
          rw [hcalls] at hmem
          simp only [List.mem_cons, Prod.mk.injEq, reduceCtorEq, and_false, false_or] at hmem
          obtain ⟨hres, pre, hpre⟩ := hfail path e hmem
          exact ⟨hres, A ++ [.RemoveProject project.Path none,
            .Printf ("> Project '" ++ fmtBadVerbD project.Path ++
              "' was successfully removed\n")] ++ pre, by rw [hpre]; simp⟩
        · intro h c hc
          rw [hcalls] at hc
          rcases List.mem_cons.mp hc with rfl | hc
          · rfl
          · exact hnil h c hc
        · rw [hcalls]
          simpa using hsub.cons₂ project.Path
        · intro hf h
          rw [hcalls]
          simp [hall hf h]

/-- The loading loop makes no `RemoveProject` call. -/
theorem loadProjects_calls {σ F T : Type} (env : Env σ F T) (args : List String)
    (acc : List Project) (w : World σ F T) :
    ∃ L, (loadProjects env args acc w).2.trace = w.trace ++ L ∧ removeProjectCalls L = [] := by
  induction args generalizing acc w with
  | nil => exact ⟨[], by simp [loadProjects], rfl⟩
  | cons path args ih =>
    unfold loadProjects
    cases hl : env.LoadProject path w.store with
    | error err => exact ⟨[_], rfl, rfl⟩
    | ok project =>
      simp only
      obtain ⟨L, hL, hcalls⟩ := ih (acc ++ [project]) (w.log (.LoadProject path (.ok project)))
      exact ⟨.LoadProject path (.ok project) :: L, by rw [hL]; simp [log_trace],
        by simpa [removeProjectCalls] using hcalls⟩

theorem collectProjects_calls {σ F T : Type} (env : Env σ F T) (removeAll : Bool)
    (args : List String) (w : World σ F T) :
    ∃ L, (collectProjects env removeAll args w).2.trace = w.trace ++ L ∧
      removeProjectCalls L = [] := by
  unfold collectProjects
  split
  · exact ⟨[_], rfl, rfl⟩
  · split
    · exact ⟨[], by simp, rfl⟩
    · exact loadProjects_calls env args [] w

/-- C8 (as amended): in a run of the project `rm` command, a failure of
`RemoveProject` on one project is reported and ends the run: the command
returns that error and the report is its last event, so `RemoveProject` is not
attempted for any later project.  The command returns no error only when no
attempted removal failed.  When the arguments are valid, the removals
attempted are removals of loaded projects, in order, and with the force flag
and no failure every loaded project is removed. -/
theorem rmCmd_stops_at_first_failure {σ F T : Type} (env : Env σ F T)
    (removeAllProjects forceRemoveProjects : Bool) (args : List String) (w : World σ F T) :
    ∃ U, (rmCmd_RunE env removeAllProjects forceRemoveProjects args w).2.trace = w.trace ++ U ∧
      (∀ path e, (path, some e) ∈ removeProjectCalls U →
        (rmCmd_RunE env removeAllProjects forceRemoveProjects args w).1 = some e ∧
        ∃ pre, U = pre ++ [.RemoveProject path (some e), .Printf (removalFailedLine path e)]) ∧
      ((rmCmd_RunE env removeAllProjects forceRemoveProjects args w).1 = none →
        ∀ c ∈ removeProjectCalls U, c.2 = none) ∧
      (∀ projects, (collectProjects env removeAllProjects args w).1 = .ok projects →
        List.Sublist ((removeProjectCalls U).map Prod.fst) (projects.map (·.Path)) ∧
        (forceRemoveProjects = true →
          (rmCmd_RunE env removeAllProjects forceRemoveProjects args w).1 = none →
          (removeProjectCalls U).map Prod.fst = projects.map (·.Path))) := by
  obtain ⟨L, hL, hLcalls⟩ := collectProjects_calls env removeAllProjects args w
  unfold rmCmd_RunE
  cases hc : collectProjects env removeAllProjects args w with
  | mk loaded w1 =>
    rw [hc] at hL
    simp only at hL
    cases loaded with
    | error err =>
      refine ⟨L, hL, ?_, ?_, ?_⟩
      · intro path e hmem; rw [hLcalls] at hmem; simp at hmem
      · intro _ c hmem; rw [hLcalls] at hmem; simp at hmem
      · intro projects h; simp at h
    | ok projects =>
      simp only
      obtain ⟨U, hU, hfail, hnil, hsub, hall⟩ :=
        removeProjects_spec env forceRemoveProjects projects w1
      have hcalls : removeProjectCalls (L ++ U) = removeProjectCalls U := by
        rw [removeProjectCalls_append, hLcalls]; rfl
      refine ⟨L ++ U, by rw [hU, hL, List.append_assoc], ?_, ?_, ?_⟩
      · intro path e hmem
        rw [hcalls] at hmem
        obtain ⟨hres, pre, hpre⟩ := hfail path e hmem
        exact ⟨hres, L ++ pre, by rw [hpre, List.append_assoc]⟩
      · intro h c hmem
        rw [hcalls] at hmem
        exact hnil h c hmem
      · intro projects' h
        have : projects' = projects := by simpa using h.symm
        subst this
        rw [hcalls]
        exact ⟨hsub, hall⟩

/-- C8, as stated, fails: `rm --force /home/u/one /home/u/two`, both paths
registered, the removal of the first failing in the store.  The command
returns the error, and `RemoveProject` is never attempted for
`/home/u/two`. -/
theorem rmCmd_does_not_continue :
    (collectProjects repoEnv false ["/home/u/one", "/home/u/two"] exampleWorld).1
      = .ok [⟨1, "one", "/home/u/one", 2⟩, ⟨2, "two", "/home/u/two", 2⟩] ∧
    (rmCmd_RunE repoEnv false true ["/home/u/one", "/home/u/two"] exampleWorld).1
      = some "disk I/O error" ∧
    removeProjectCalls
      (rmCmd_RunE repoEnv false true ["/home/u/one", "/home/u/two"] exampleWorld).2.trace
      = [("/home/u/one", some "disk I/O error")] := by
  decide

end Commands

/-! ## The batch loops (C11) -/

theorem mkdirCalls_append (t u : List Event) :
    mkdirCalls (t ++ u) = mkdirCalls t ++ mkdirCalls u := by
  induction t with
  | nil => rfl
  | cons e t ih =>
    cases e with
    | Print text => simpa [mkdirCalls] using ih
    | Ret ph r => simpa [mkdirCalls] using ih
    | Sys cwd call r => cases call <;> simpa [mkdirCalls] using ih

theorem mkdirCalls_sys {F : Type} (sys : Sys F) (call : SysCall) (h : call.notMkdir = true)
    (s : Proc F) : mkdirCalls (s.sys sys call).2.trace = mkdirCalls s.trace := by
  rw [sys_trace, mkdirCalls_append]
  cases call <;> simp_all [mkdirCalls, SysCall.notMkdir]

theorem forEachCall_mkdirCalls {F α : Type} (sys : Sys F) (mk : α → SysCall)
    (hmk : ∀ a, (mk a).notMkdir = true) (rows : List α) (s : Proc F) :
    mkdirCalls (forEachCall sys mk rows s).2.trace = mkdirCalls s.trace := by
  induction rows generalizing s with
  | nil => rfl
  | cons row rows ih =>
    rcases forEachCall_cons sys mk row rows s with ⟨err, _, heq⟩ | ⟨_, heq⟩
    · rw [heq]; exact mkdirCalls_sys sys _ (hmk row) s
    · rw [heq, ih]; exact mkdirCalls_sys sys _ (hmk row) s

theorem createSubFolders_mkdirCalls {F : Type} (sys : Sys F) (project : Project) (s : Proc F) :
    mkdirCalls (createSubFolders sys project s).2.trace = mkdirCalls s.trace := by
  unfold createSubFolders
  cases project.Data.db.query sqlSubFolders
      (selectPlain project.Data.db.class_folder project.Data.projectID) with
  | error err => rfl
  | ok rs =>
    simp only
    rw [createSubFoldersLoop_eq]
    apply forEachCall_mkdirCalls
    intro _; rfl

theorem createFiles_mkdirCalls {F : Type} (sys : Sys F) (project : Project) (s : Proc F) :
    mkdirCalls (createFiles sys project s).2.trace = mkdirCalls s.trace := by
  unfold createFiles
  cases project.Data.db.query sqlFiles
      (selectPlain project.Data.db.class_file project.Data.projectID) with
  | error err => rfl
  | ok rs =>
    simp only
    rw [createFilesLoop_eq]
    apply forEachCall_mkdirCalls
    intro _; rfl

theorem runScripts_mkdirCalls {F : Type} (sys : Sys F) (project : Project) (s : Proc F) :
    mkdirCalls (runScripts sys project s).2.trace = mkdirCalls s.trace := by
  unfold runScripts
  cases project.Data.db.query sqlScripts
      (selectScripts project.Data.db.class_script project.Data.projectID) with
  | error err => rfl
  | ok rs =>
    simp only
    rw [runScriptsLoop_eq]
    apply forEachCall_mkdirCalls
    intro _; rfl

theorem copyTemplates_mkdirCalls {F : Type} (sys : Sys F) (project : Project) (s : Proc F) :
    mkdirCalls (copyTemplates sys project s).2.trace = mkdirCalls s.trace := by
  unfold copyTemplates
  cases project.Data.db.query sqlTemplateFolders
      (selectTemplates project.Data.db.class_folder project.Data.projectID) with
  | error err => rfl
  | ok folders =>
    simp only
    have h1 : mkdirCalls (copyTemplatesLoop sys project folders s).2.trace
        = mkdirCalls s.trace := by
      rw [copyTemplatesLoop_eq]
      apply forEachCall_mkdirCalls
      intro _; rfl
    cases hl : copyTemplatesLoop sys project folders s with
    | mk r s1 =>
      rw [hl] at h1
      cases r with
      | some err => exact h1
      | none =>
        simp only
        cases project.Data.db.query sqlTemplateFiles
            (selectTemplates project.Data.db.class_file project.Data.projectID) with
        | error err => exact h1
        | ok files =>
          simp only
          have h2 : mkdirCalls (copyTemplatesLoop sys project files s1).2.trace
              = mkdirCalls s1.trace := by
            rw [copyTemplatesLoop_eq]
            apply forEachCall_mkdirCalls
            intro _; rfl
          rw [h2]
          exact h1

theorem seqPhases_mkdirCalls {F : Type}
    (phs : List (Phase × String × (Proc F → Option Err × Proc F)))
    (hq : ∀ x ∈ phs, ∀ s, mkdirCalls (x.2.2 s).2.trace = mkdirCalls s.trace) (s : Proc F) :
    mkdirCalls (seqPhases phs s).2.trace = mkdirCalls s.trace := by
  induction phs generalizing s with
  | nil => rfl
  | cons x rest ih =>
    obtain ⟨ph, header, run⟩ := x
    have hrun := hq (ph, header, run) (List.mem_cons_self _ _) (s.println header)
    simp only at hrun
    have hret : mkdirCalls (Proc.ret ph (run (s.println header))).2.trace
        = mkdirCalls s.trace := by
      show mkdirCalls ((run (s.println header)).2.trace ++ [_]) = _
      rw [mkdirCalls_append, hrun]
      simp [Proc.println, mkdirCalls_append, mkdirCalls]
    rcases seqPhases_cons ph header run rest s with ⟨err, _, heq⟩ | ⟨_, heq⟩
    · rw [heq]; exact hret
    · rw [heq, ih (fun x hx => hq x (List.mem_cons_of_mem _ hx))]; exact hret

theorem createBody_mkdirCalls {F : Type} (sys : Sys F) (project : Project) (s : Proc F) :
    mkdirCalls (createBody sys project s).2.trace = mkdirCalls s.trace := by
  rw [createBody_eq_seqPhases]
  apply seqPhases_mkdirCalls
  intro x hx
  simp only [bodyPhases, List.mem_cons, List.mem_singleton, List.not_mem_nil, or_false] at hx
  rcases hx with rfl | rfl | rfl | rfl
  · exact createSubFolders_mkdirCalls sys project
  · exact createFiles_mkdirCalls sys project
  · exact copyTemplates_mkdirCalls sys project
  · exact runScripts_mkdirCalls sys project

/-- Every run of `create` starts by announcing the root folder phase and
issuing `os.Mkdir` for the project name, and issues no other `os.Mkdir`. -/
theorem create_turn {F : Type} (sys : Sys F) (project : Project) (s : Proc F) :
    ∃ r rest, (create sys project s).2.trace = s.trace ++
        Event.Print "> Creating project folder..." ::
        Event.Sys s.cwd (.Mkdir project.Name ModePerm) r :: rest ∧
      mkdirCalls rest = [] := by
  have hR := afterRoot_trace sys project s
  have hC := afterChdir_trace sys project s
  rcases create_cases sys project s with ⟨err, h1, heq⟩ | ⟨h1, err, h2, heq⟩ | ⟨h1, h2, heq⟩
  · rw [heq]
    exact ⟨_, [Event.Ret .createProjectFolder (afterRoot sys project s).1], hR, rfl⟩
  · rw [heq]
    refine ⟨(afterRoot sys project s).1,
      [Event.Ret .createProjectFolder (afterRoot sys project s).1,
        Event.Sys s.cwd (.Chdir project.Name) (afterChdir sys project s).1], ?_, rfl⟩
    rw [hC, hR]; simp
  · rw [heq]
    obtain ⟨_, T, hT, _⟩ :=
      seqPhases_spec (bodyPhases sys project) (bodyPhases_quiet sys project)
        (afterChdir sys project s).2
    rw [← createBody_eq_seqPhases] at hT
    have hTm : mkdirCalls T = [] := by
      have := createBody_mkdirCalls sys project (afterChdir sys project s).2
      rw [hT, mkdirCalls_append] at this
      simpa using this
    refine ⟨(afterRoot sys project s).1,
      [Event.Ret .createProjectFolder (afterRoot sys project s).1,
        Event.Sys s.cwd (.Chdir project.Name) (afterChdir sys project s).1] ++ T ++
        [Event.Sys (afterBody sys project s).2.cwd (.Chdir project.Data.Owd)
          ((afterBody sys project s).2.sys sys (.Chdir project.Data.Owd)).1], ?_, ?_⟩
    · rw [sys_trace]
      unfold afterBody
      rw [hT, hC, hR]; simp
    · rw [mkdirCalls_append, mkdirCalls_append, hTm]; rfl

/-- The projects loop takes one turn for every name, in order, whatever the
results of `create`. -/
theorem projectsLoop_turns {F : Type} (sys : Sys F) (host : Host) (newSetup : Setup)
    (projects : List String) (s : Proc F) :
    ∃ segs, (projectsLoop sys host newSetup projects s).trace = s.trace ++ segs.flatten ∧
      List.Forall₂ (IsCreateTurn host) projects segs := by
  induction projects generalizing s with
  | nil => exact ⟨[], by simp [projectsLoop], List.Forall₂.nil⟩
  | cons name projects ih =>
    obtain ⟨r, rest, htr, hrest⟩ := create_turn sys
      { id := "", Name := name, Data := newSetup } (s.println (host.ProjectHeader name))
    have htr0 : (s.println (host.ProjectHeader name)).trace
        = s.trace ++ [Event.Print (host.ProjectHeader name)] := rfl
    rw [htr0] at htr
    cases hc : create sys { id := "", Name := name, Data := newSetup }
        (s.println (host.ProjectHeader name)) with
    | mk res s1 =>
      rw [hc] at htr
      simp only at htr
      cases res with
      | some err =>
        have hstep : projectsLoop sys host newSetup (name :: projects) s
            = projectsLoop sys host newSetup projects (s1.println err) := by
          simp only [projectsLoop, hc]
        obtain ⟨segs, hsegs, hall⟩ := ih (s1.println err)
        refine ⟨(Event.Print (host.ProjectHeader name) ::
            Event.Print "> Creating project folder..." ::
            Event.Sys (s.println (host.ProjectHeader name)).cwd (.Mkdir name ModePerm) r ::
            (rest ++ [Event.Print err])) :: segs, ?_, List.Forall₂.cons ⟨_, r, _, rfl, ?_⟩ hall⟩
        · rw [hstep, hsegs]
          show (s1.trace ++ [Event.Print err]) ++ segs.flatten = _
          rw [htr]; simp
        · rw [mkdirCalls_append, hrest]; rfl
      | none =>
        have hstep : projectsLoop sys host newSetup (name :: projects) s
            = projectsLoop sys host newSetup projects s1 := by
          simp only [projectsLoop, hc]
        obtain ⟨segs, hsegs, hall⟩ := ih s1
        refine ⟨(Event.Print (host.ProjectHeader name) ::
            Event.Print "> Creating project folder..." ::
            Event.Sys (s.println (host.ProjectHeader name)).cwd (.Mkdir name ModePerm) r ::
            rest) :: segs, ?_, List.Forall₂.cons ⟨_, r, _, rfl, hrest⟩ hall⟩
        rw [hstep, hsegs, htr]; simp

/-- The `os.Mkdir` calls of a sequence of turns are those of the names, in order. -/
theorem mkdirCalls_turns (host : Host) (projects : List String) (segs : List (List Event))
    (h : List.Forall₂ (IsCreateTurn host) projects segs) : mkdirCalls segs.flatten = projects := by
  induction h with
  | nil => rfl
  | cons hturn _ ih =>
    obtain ⟨cwd, r, rest, rfl, hrest⟩ := hturn
    rw [List.flatten_cons, mkdirCalls_append, ih]
    simp [mkdirCalls, hrest]

namespace Commands

theorem saveProjectCalls_append (t u : List Event) :
    saveProjectCalls (t ++ u) = saveProjectCalls t ++ saveProjectCalls u := by
  induction t with
  | nil => rfl
  | cons e t ih => cases e <;> simpa [saveProjectCalls] using ih

/-- Every run of `createProject` starts with the `SaveProject` call for the
new project and makes no other `SaveProject` call. -/
theorem createProject_turn {σ F T : Type} (env : Env σ F T) (name cwd configPath : String)
    (cls : Class) (w : World σ F T) :
    ∃ r rest, (createProject env name cwd configPath cls w).2.trace = w.trace ++
        Event.SaveProject (env.NewProject name (env.Join cwd name) cls) r :: rest ∧
      saveProjectCalls rest = [] := by
  unfold createProject
  simp only
  split
  · next err p store h => exact ⟨some err, [], rfl, rfl⟩
  · next p store h =>
    split
    · next err fs hc =>
      exact ⟨none, [Event.Create p cwd configPath (some err)], by simp [log_trace], rfl⟩
    · next fs hc =>
      exact ⟨none, [Event.Create p cwd configPath none], by simp [log_trace], rfl⟩

/-- The `SaveProject` calls of `replaceProject` are for the project of the name. -/
theorem replaceProject_calls {σ F T : Type} (env : Env σ F T) (name cwd configPath : String)
    (cls : Class) (w : World σ F T) :
    ∃ U, (replaceProject env name cwd configPath cls w).2.trace = w.trace ++ U ∧
      ∀ p ∈ saveProjectCalls U, p = env.NewProject name (env.Join cwd name) cls := by
  unfold replaceProject
  split
  · next err store h => exact ⟨[_], rfl, by simp [saveProjectCalls]⟩
  · next store h =>
    obtain ⟨r, rest, htr, hrest⟩ := createProject_turn env name cwd configPath cls
      ({ w with store := store }.log (.RemoveProject (env.Join cwd name) none))
    refine ⟨Event.RemoveProject (env.Join cwd name) none ::
      Event.SaveProject (env.NewProject name (env.Join cwd name) cls) r :: rest, ?_, ?_⟩
    · rw [htr]; simp [log_trace]
    · intro p hp
      simpa [saveProjectCalls, hrest] using hp

/-- The loop of the create command takes one turn for every name, in order,
whatever the results of `createProject` and `replaceProject`. -/
theorem createCmdLoop_turns {σ F T : Type} (env : Env σ F T) (cwd configPath : String)
    (cls : Class) (projects : List String) (w : World σ F T) :
    ∃ segs, (createCmdLoop env cwd configPath cls projects w).trace = w.trace ++ segs.flatten ∧
      List.Forall₂ (IsCreateCmdTurn env cwd cls) projects segs := by
  induction projects generalizing w with
  | nil => exact ⟨[], by simp [createCmdLoop], List.Forall₂.nil⟩
  | cons name projects ih =>
    -- the turn for `name`: the world after it and its events
    obtain ⟨w1, seg, htr, hseg, hstep⟩ : ∃ (w1 : World σ F T) (seg : List Event),
        w1.trace = w.trace ++ seg ∧ IsCreateCmdTurn env cwd cls name seg ∧
        createCmdLoop env cwd configPath cls (name :: projects) w
          = createCmdLoop env cwd configPath cls projects w1 := by
      obtain ⟨r, rest, hcp, hrest⟩ := createProject_turn env name cwd configPath cls
        (w.log (.Printf ("\n> Creating project " ++ name ++ "\n")))
      rw [log_trace] at hcp
      simp only [createCmdLoop]
      split
      · next err w2 hc =>
        rw [hc] at hcp
        simp only at hcp
        split
        · split
          · refine ⟨_, Event.Printf ("\n> Creating project " ++ name ++ "\n") ::
                Event.SaveProject (env.NewProject name (env.Join cwd name) cls) r ::
                (rest ++ [Event.Printf (" -> Failed: " ++ err ++ "\n"),
                  Event.WantTo "> Do you want to replace it?"
                    (env.WantTo "> Do you want to replace it?"
                      (w2.log (.Printf (" -> Failed: " ++ err ++ "\n"))).tty).1]),
              ?_, ⟨r, _, rfl, ?_⟩, rfl⟩
            · simp [log_trace, hcp]
            · intro p hp
              rw [saveProjectCalls_append, hrest] at hp
              simp [saveProjectCalls] at hp
          · obtain ⟨U, hU, hUcalls⟩ := replaceProject_calls env name cwd configPath cls
              ({ (w2.log (.Printf (" -> Failed: " ++ err ++ "\n"))) with
                tty := (env.WantTo "> Do you want to replace it?"
                  (w2.log (.Printf (" -> Failed: " ++ err ++ "\n"))).tty).2 }.log
                (.WantTo "> Do you want to replace it?"
                  (env.WantTo "> Do you want to replace it?"
                    (w2.log (.Printf (" -> Failed: " ++ err ++ "\n"))).tty).1))
            split
            · next err2 w3 hr =>
              rw [hr] at hU
              simp only at hU
              refine ⟨_, Event.Printf ("\n> Creating project " ++ name ++ "\n") ::
                  Event.SaveProject (env.NewProject name (env.Join cwd name) cls) r ::
                  (rest ++ [Event.Printf (" -> Failed: " ++ err ++ "\n"),
                    Event.WantTo "> Do you want to replace it?"
                      (env.WantTo "> Do you want to replace it?"
                        (w2.log (.Printf (" -> Failed: " ++ err ++ "\n"))).tty).1] ++ U ++
                    [Event.Printf ("> Replacing project " ++ name ++ " failed: " ++
                      err2 ++ "\n")]),
                ?_, ⟨r, _, rfl, ?_⟩, rfl⟩
              · rw [log_trace, hU]; simp [log_trace, hcp]
              · intro p hp
                rw [saveProjectCalls_append, saveProjectCalls_append,
                  saveProjectCalls_append, hrest] at hp
                simp only [saveProjectCalls, List.nil_append, List.append_nil] at hp
                exact hUcalls p hp
            · next w3 hr =>
              rw [hr] at hU
              simp only at hU
              refine ⟨_, Event.Printf ("\n> Creating project " ++ name ++ "\n") ::
                  Event.SaveProject (env.NewProject name (env.Join cwd name) cls) r ::
                  (rest ++ [Event.Printf (" -> Failed: " ++ err ++ "\n"),
                    Event.WantTo "> Do you want to replace it?"
                      (env.WantTo "> Do you want to replace it?"
                        (w2.log (.Printf (" -> Failed: " ++ err ++ "\n"))).tty).1] ++ U ++
                    [Event.Printf ("> Project " ++ name ++
                      " was successfully replaced\n")]),
                ?_, ⟨r, _, rfl, ?_⟩, rfl⟩
              · rw [log_trace, hU]; simp [log_trace, hcp]
              · intro p hp
                rw [saveProjectCalls_append, saveProjectCalls_append,
                  saveProjectCalls_append, hrest] at hp
                simp only [saveProjectCalls, List.nil_append, List.append_nil] at hp
                exact hUcalls p hp
        · refine ⟨_, Event.Printf ("\n> Creating project " ++ name ++ "\n") ::
              Event.SaveProject (env.NewProject name (env.Join cwd name) cls) r ::
              (rest ++ [Event.Printf (" -> Failed: " ++ err ++ "\n")]),
            ?_, ⟨r, _, rfl, ?_⟩, rfl⟩
          · rw [log_trace, hcp]; simp
          · intro p hp
            rw [saveProjectCalls_append, hrest] at hp
            simp [saveProjectCalls] at hp
      · next w2 hc =>
        rw [hc] at hcp
        simp only at hcp
        refine ⟨_, Event.Printf ("\n> Creating project " ++ name ++ "\n") ::
            Event.SaveProject (env.NewProject name (env.Join cwd name) cls) r ::
            (rest ++ [Event.Printf ("> Project " ++ name ++ " was successfully created\n")]),
          ?_, ⟨r, _, rfl, ?_⟩, rfl⟩
        · rw [log_trace, hcp]; simp
        · intro p hp
          rw [saveProjectCalls_append, hrest] at hp
          simp [saveProjectCalls] at hp
    rw [hstep]
    obtain ⟨segs, hsegs, hall⟩ := ih w1
    exact ⟨seg :: segs, by rw [hsegs, htr]; simp, List.Forall₂.cons hseg hall⟩

end Commands

/-- C11: once the setup (for `CreateProject`) and the class load (for the
create command) have succeeded, both batch functions return `nil` and their
trace is one turn for every given name, in the given order, one after the
other: in `CreateProject` each turn starts with the project header and the
`os.Mkdir` of that project's root folder (the start of `create`), and the
`os.Mkdir` calls of the whole batch are exactly the given names in order; in
the create command each turn starts with the announcement and the
`SaveProject` call of `createProject` for that name.  A failing turn does not
end the loop. -/
theorem batch_attempts_every_name {F σ G T : Type} (sys : Sys F) (host : Host)
    (label databaseName : String) (projects : List String) (s : Proc F) (newSetup : Setup)
    (env : Commands.CreateEnv σ G T) (cmdLabel cwd name : String) (names : List String)
    (cls : Commands.Class) (w : Commands.World σ G T)
    (hname : host.databaseName = some databaseName) (hwd : host.getwdFault = none)
    (hinit : Setup.init host s.cwd host.GetConfigDir databaseName (host.ToLower label)
      = .ok newSetup)
    (hcwd : env.Getwd = .ok cwd) (hcls : env.LoadClass cmdLabel w.store = .ok cls) :
    ((CreateProject sys host label projects s).1 = none ∧
      mkdirCalls (CreateProject sys host label projects s).2.trace
        = mkdirCalls s.trace ++ projects ∧
      ∃ segs, (CreateProject sys host label projects s).2.trace = s.trace ++ segs.flatten ∧
        List.Forall₂ (IsCreateTurn host) projects segs) ∧
    ((Commands.createCmd_RunE env (cmdLabel :: name :: names) w).1 = none ∧
      ∃ segs, (Commands.createCmd_RunE env (cmdLabel :: name :: names) w).2.trace
          = w.trace ++ segs.flatten ∧
        List.Forall₂ (Commands.IsCreateCmdTurn env.toEnv cwd cls) (name :: names) segs) := by
  constructor
  · have hrun : CreateProject sys host label projects s
        = (none, projectsLoop sys host newSetup projects s) := by
      simp only [CreateProject, hname, hwd, hinit]
    rw [hrun]
    obtain ⟨segs, hsegs, hall⟩ := projectsLoop_turns sys host newSetup projects s
    refine ⟨rfl, ?_, segs, hsegs, hall⟩
    show mkdirCalls (projectsLoop sys host newSetup projects s).trace = _
    rw [hsegs, mkdirCalls_append, mkdirCalls_turns host projects segs hall]
  · have hrun : Commands.createCmd_RunE env (cmdLabel :: name :: names) w
        = (none, Commands.createCmdLoop env.toEnv cwd env.ConfigFolderPath cls
            (name :: names) w) := by
      simp only [Commands.createCmd_RunE, hcwd, hcls]
    rw [hrun]
    exact ⟨rfl, Commands.createCmdLoop_turns env.toEnv cwd env.ConfigFolderPath cls
      (name :: names) w⟩

/-- C11 at a concrete input.  `CreateProject` for the label `EXP` and the names
`demo`, `demo`, `other` in `/home/u`: the second `demo` fails (its folder
exists) and `other` is still created.  The create command for the class `exp`
and the names `one`, `three`: `one` is already registered, the user declines
to replace it, and `three` is still created. -/
theorem batch_attempts_every_name_witness :
    (sysCalls (CreateProject (posix copyFile runOk) exampleHost "EXP"
        ["demo", "demo", "other"] exampleProc).2.trace).filter (fun c => !c.notMkdir)
      = [.Mkdir "demo" ModePerm, .Mkdir "demo" ModePerm, .Mkdir "other" ModePerm] ∧
    phaseReturns (CreateProject (posix copyFile runOk) exampleHost "EXP"
        ["demo", "demo", "other"] exampleProc).2.trace
      = [(.createProjectFolder, none), (.createSubFolders, none), (.createFiles, none),
         (.copyTemplates, none), (.runScripts, none),
         (.createProjectFolder, some "file exists"),
         (.createProjectFolder, none), (.createSubFolders, none), (.createFiles, none),
         (.copyTemplates, none), (.runScripts, none)] ∧
    Commands.saveProjectCalls (Commands.createCmd_RunE Commands.repoCreateEnv
        ["exp", "one", "three"] Commands.exampleWorld).2.trace
      = [⟨0, "one", "/home/u/one", 2⟩, ⟨0, "three", "/home/u/three", 2⟩] ∧
    Commands.createCalls (Commands.createCmd_RunE Commands.repoCreateEnv
        ["exp", "one", "three"] Commands.exampleWorld).2.trace
      = [⟨0, "three", "/home/u/three", 2⟩] ∧
    ((CreateProject (posix copyFile runOk) exampleHost "EXP"
        ["demo", "demo", "other"] exampleProc).1 = none ∧
      mkdirCalls (CreateProject (posix copyFile runOk) exampleHost "EXP"
          ["demo", "demo", "other"] exampleProc).2.trace
        = mkdirCalls exampleProc.trace ++ ["demo", "demo", "other"] ∧
      ∃ segs, (CreateProject (posix copyFile runOk) exampleHost "EXP"
          ["demo", "demo", "other"] exampleProc).2.trace = exampleProc.trace ++ segs.flatten ∧
        List.Forall₂ (IsCreateTurn exampleHost) ["demo", "demo", "other"] segs) ∧
    ((Commands.createCmd_RunE Commands.repoCreateEnv ["exp", "one", "three"]
        Commands.exampleWorld).1 = none ∧
      ∃ segs, (Commands.createCmd_RunE Commands.repoCreateEnv ["exp", "one", "three"]
          Commands.exampleWorld).2.trace = Commands.exampleWorld.trace ++ segs.flatten ∧
        List.Forall₂ (Commands.IsCreateCmdTurn Commands.repoCreateEnv.toEnv "/home/u"
          Commands.expClass) ["one", "three"] segs) :=
  ⟨by decide, by decide, by decide, by decide,
    batch_attempts_every_name (posix copyFile runOk) exampleHost "EXP" "proji.sqlite3"
      ["demo", "demo", "other"] exampleProc exampleSetup Commands.repoCreateEnv
      "exp" "/home/u" "one" ["three"] Commands.expClass Commands.exampleWorld
      rfl rfl rfl rfl (by decide)⟩

/-! ## Export and import of a class (C12) -/

namespace Commands

theorem stringEntries_map (entries : List (String × String)) :
    stringEntries (entries.map (fun e => (e.1, ConfigValue.str e.2))) = .ok entries := by
  induction entries with
  | nil => rfl
  | cons e entries ih =>
    obtain ⟨k, v⟩ := e
    simp only [List.map_cons, stringEntries, ih]

theorem boolEntries_map (entries : List (String × Bool)) :
    boolEntries (entries.map (fun e => (e.1, ConfigValue.bool e.2))) = .ok entries := by
  induction entries with
  | nil => rfl
  | cons e entries ih =>
    obtain ⟨k, v⟩ := e
    simp only [List.map_cons, boolEntries, ih]

/-- Reading back the file that was just written. -/
theorem lookup_written (files : List (String × ConfigDoc)) (path : String) (doc : ConfigDoc) :
    ((path, doc) :: files.filter (fun f => f.1 != path)).lookup path = some doc := by
  simp [List.lookup_cons]

/-- Importing the document of a class with non-empty name and label gives its
name, its normalized label and its folders, files and scripts. -/
theorem importFromConfig_toDoc (toLower : String → String) (config : String)
    (c cls : Class) (fs : ConfigFS) (hfile : fs.files.lookup config = some c.toDoc)
    (hname : c.Name ≠ "") (hlabel : c.Label ≠ "") :
    Class.ImportFromConfig toLower config cls fs
      = (none, { cls with Name := c.Name, Label := toLower c.Label, Folders := c.Folders,
                          Files := c.Files, Scripts := c.Scripts }) := by
  have hinfo : c.toDoc.lookup "info"
      = some [("name", .str c.Name), ("label", .str c.Label)] := by
    simp [Class.toDoc, List.lookup_cons]
  have hfolders : c.toDoc.lookup "folders"
      = some (c.Folders.map (fun e => (e.1, ConfigValue.str e.2))) := by
    simp [Class.toDoc, List.lookup_cons]
  have hfiles : c.toDoc.lookup "files"
      = some (c.Files.map (fun e => (e.1, ConfigValue.str e.2))) := by
    simp [Class.toDoc, List.lookup_cons]
  have hscripts : c.toDoc.lookup "scripts"
      = some (c.Scripts.map (fun e => (e.1, ConfigValue.bool e.2))) := by
    simp [Class.toDoc, List.lookup_cons]
  have hn : ([("name", ConfigValue.str c.Name), ("label", ConfigValue.str c.Label)] :
      List (String × ConfigValue)).lookup "name" = some (.str c.Name) := by
    simp [List.lookup_cons]
  have hl : ([("name", ConfigValue.str c.Name), ("label", ConfigValue.str c.Label)] :
      List (String × ConfigValue)).lookup "label" = some (.str c.Label) := by
    simp [List.lookup_cons]
  unfold Class.ImportFromConfig
  rw [hfile]
  simp only [hinfo, hn, hl, hfolders, hfiles, hscripts, Option.getD_some, stringEntries_map,
    boolEntries_map]
  rw [if_neg (by simp [hname, hlabel])]

/-- C12 (as amended): for every class `c` whose name is non-empty and whose
label is non-empty and already lowercase (left as it is by the normalization
`toLower`), whenever the export of `c` to a destination succeeds, importing
the exported file into any class succeeds and yields a class equal to `c` in
Folders, Files, Scripts, Label and Name. -/
theorem import_undoes_export (toLower : String → String) (c cls : Class)
    (destinationDir filePath : String) (fs fs' : ConfigFS)
    (hname : c.Name ≠ "") (hlabel : c.Label ≠ "") (hlower : toLower c.Label = c.Label)
    (hexport : c.Export destinationDir fs = (.ok filePath, fs')) :
    (Class.ImportFromConfig toLower filePath cls fs').1 = none ∧
    (Class.ImportFromConfig toLower filePath cls fs').2.Folders = c.Folders ∧
    (Class.ImportFromConfig toLower filePath cls fs').2.Files = c.Files ∧
    (Class.ImportFromConfig toLower filePath cls fs').2.Scripts = c.Scripts ∧
    (Class.ImportFromConfig toLower filePath cls fs').2.Label = c.Label ∧
    (Class.ImportFromConfig toLower filePath cls fs').2.Name = c.Name := by
  have hfile : fs'.files.lookup filePath = some c.toDoc := by
    unfold Class.Export at hexport
    split at hexport
    · simp at hexport
    · simp only [Prod.mk.injEq, Except.ok.injEq] at hexport
      obtain ⟨hp, hfs⟩ := hexport
      rw [← hfs, ← hp]
      exact lookup_written _ _ _
  rw [importFromConfig_toDoc toLower filePath c cls fs' hfile hname hlabel]
  exact ⟨rfl, rfl, rfl, rfl, hlower, rfl⟩

/-- The amended C12 at the class of the tests: name `example`, label `exp`,
folders `exampleFolder/` and `foo/bar/`, files `README.md` (from the template
`README.md`) and `exampleFolder/test.txt`, exported to `.` and imported into
the blank class. -/
theorem import_undoes_export_witness :
    expClass.Export "." emptyConfigFS
      = (.ok "./exp.toml", { files := [("./exp.toml", expClass.toDoc)], readOnly := [] }) ∧
    Class.ImportFromConfig asciiLower "./exp.toml" blankClass
      { files := [("./exp.toml", expClass.toDoc)], readOnly := [] }
      = (none, { expClass with ID := 0 }) ∧
    ((Class.ImportFromConfig asciiLower "./exp.toml" blankClass
        { files := [("./exp.toml", expClass.toDoc)], readOnly := [] }).1 = none ∧
      (Class.ImportFromConfig asciiLower "./exp.toml" blankClass
        { files := [("./exp.toml", expClass.toDoc)], readOnly := [] }).2.Folders
        = expClass.Folders ∧
      (Class.ImportFromConfig asciiLower "./exp.toml" blankClass
        { files := [("./exp.toml", expClass.toDoc)], readOnly := [] }).2.Files
        = expClass.Files ∧
      (Class.ImportFromConfig asciiLower "./exp.toml" blankClass
        { files := [("./exp.toml", expClass.toDoc)], readOnly := [] }).2.Scripts
        = expClass.Scripts ∧
      (Class.ImportFromConfig asciiLower "./exp.toml" blankClass
        { files := [("./exp.toml", expClass.toDoc)], readOnly := [] }).2.Label
        = expClass.Label ∧
      (Class.ImportFromConfig asciiLower "./exp.toml" blankClass
        { files := [("./exp.toml", expClass.toDoc)], readOnly := [] }).2.Name
        = expClass.Name) :=
  ⟨by decide, by decide,
    import_undoes_export asciiLower expClass blankClass "." "./exp.toml" emptyConfigFS
      { files := [("./exp.toml", expClass.toDoc)], readOnly := [] }
      (by decide) (by decide) (by decide) (by decide)⟩

/-- C12, as stated for every class, fails.  The blank class built by
`item.NewClass("", "", false)` is exported to `./.toml`, and importing that
file fails because name and label are empty.  The class with label `Exp` is
exported to `./Exp.toml`, and importing that file succeeds with the label
`exp`, which is not the label of the exported class. -/
theorem import_does_not_undo_every_export :
    (blankClass.Export "." emptyConfigFS).1 = .ok "./.toml" ∧
    (Class.ImportFromConfig asciiLower "./.toml" blankClass
      (blankClass.Export "." emptyConfigFS).2).1 = some "ImportError: empty name or label" ∧
    (upperClass.Export "." emptyConfigFS).1 = .ok "./Exp.toml" ∧
    (Class.ImportFromConfig asciiLower "./Exp.toml" blankClass
      (upperClass.Export "." emptyConfigFS).2).1 = none ∧
    (Class.ImportFromConfig asciiLower "./Exp.toml" blankClass
      (upperClass.Export "." emptyConfigFS).2).2.Label = "exp" ∧
    (Class.ImportFromConfig asciiLower "./Exp.toml" blankClass
      (upperClass.Export "." emptyConfigFS).2).2.Label ≠ upperClass.Label := by
  decide

end Commands

end Proji
